import Mathlib

/-!
Verification development for the admission-control and caching layer of the
high-scale API platform repository.

The Lean definitions below are a shallow embedding of the TypeScript sources:

* `src/rate-limit/rate-limit.service.ts` — `RateLimitService.checkTokenBucket`
  and `RateLimitService.checkLeakyBucket`, including the embedded Lua scripts
  executed atomically on the store, the JS post-processing of the script reply,
  and the fail-open / fail-closed fallback paths.
* `src/redis/redis.service.ts` — the connection-health flag (`isConnected`),
  its transport-event listeners, `ping`, and the error-swallowing wrappers
  (`get`/`set`/`del`/`exists`/`expire`).
* `src/cache/cache.service.ts` — `get`/`set`/`delete`/`invalidateByTags`/
  `clear`/`getOrSet` (stampede guard) together with the tag bookkeeping and
  the distributed lock helpers.

Numbers: Lua/JS numbers are modelled as exact rationals (ℚ) for token/level
quantities and rates, and as integers (ℤ) for millisecond timestamps; the
values the code manipulates in the verified scenarios are small and exactly
representable, so no floating-point rounding is observable.  Redis converts a
number returned by a Lua script to an integer reply by truncation toward
zero; this step is modelled explicitly (luaTrunc) between the script reply
and the JS post-processing.  Time is an explicit `now` parameter; key
expiry (EXPIRE/TTL) is recorded where the scripts write it but clocks never
advance inside a single call.
-/

namespace HighScale

/-- Result shape returned by both rate-limit checks
(rate-limit.service.ts, interface RateLimitResult).  The remaining count is
kept as a rational because the fail-open fallback returns the raw capacity
argument while the main path returns a floored value. -/
structure RateLimitResult where
  allowed : Bool
  remaining : ℚ
  resetTime : ℤ
  retryAfter : Option ℤ
deriving DecidableEq, Repr

/-- Hash stored under rate_limit:token_bucket:id — fields tokens, lastRefill
(written together by HMSET, hence one Option). -/
structure TokenBucket where
  tokens : ℚ
  lastRefill : ℤ
deriving DecidableEq, Repr

/-- The slice of the store a token-bucket check touches: the bucket hash and
the expiry the script sets with EXPIRE. -/
structure TBStore where
  bucket : Option TokenBucket
  expiry : Option ℤ
deriving DecidableEq, Repr

/-- Empty store: bucket key absent. -/
def TBStore.empty : TBStore := ⟨none, none⟩

/-- Hash stored under rate_limit:leaky_bucket:id — fields level, lastLeak. -/
structure LeakyBucket where
  level : ℚ
  lastLeak : ℤ
deriving DecidableEq, Repr

/-- The slice of the store a leaky-bucket check touches. -/
structure LBStore where
  bucket : Option LeakyBucket
  expiry : Option ℤ
deriving DecidableEq, Repr

/-- Empty store: bucket key absent. -/
def LBStore.empty : LBStore := ⟨none, none⟩

/-- Raw tuple a Lua script returns to the JS layer: {1, tokens, reset} on
allow, {0, tokens, reset, retryAfter} on deny (the fourth slot is absent on
the allow branch, hence an Option). -/
structure ScriptReply where
  flag : ℤ
  remaining : ℚ
  resetTime : ℤ
  retryAfter : Option ℤ
deriving DecidableEq, Repr

/-- Lua script of checkTokenBucket (rate-limit.service.ts lines 69-97),
executed atomically: read tokens/lastRefill or default (capacity, now); add
floor(elapsedSeconds * refillRate) tokens capped at capacity; if at least one
token is available consume it, HMSET the bucket, EXPIRE the key and return
{1, tokens, now + windowMs}; otherwise write nothing and return
{0, tokens, now + timeNeeded*1000, timeNeeded}. -/
def tokenBucketScript (capacity refillRate : ℚ) (now windowMs : ℤ)
    (st : TBStore) : ScriptReply × TBStore :=
  let tokens0 : ℚ := match st.bucket with | some b => b.tokens | none => capacity
  let lastRefill : ℤ := match st.bucket with | some b => b.lastRefill | none => now
  let timePassed : ℚ := ((now - lastRefill : ℤ) : ℚ) / 1000
  let tokensToAdd : ℤ := ⌊timePassed * refillRate⌋
  let tokens : ℚ := min capacity (tokens0 + (tokensToAdd : ℚ))
  if 1 ≤ tokens then
    ⟨⟨1, tokens - 1, now + windowMs, none⟩,
     ⟨some ⟨tokens - 1, now⟩, some ⌈(windowMs : ℚ) / 1000⌉⟩⟩
  else
    let timeNeeded : ℤ := ⌈(1 - tokens) / refillRate⌉
    ⟨⟨0, tokens, now + timeNeeded * 1000, some timeNeeded⟩, st⟩

/-- Lua script of checkLeakyBucket (rate-limit.service.ts lines 177-205):
read level/lastLeak or default (0, now); drain floor(elapsedSeconds * leakRate);
if the drained level is below capacity add the request, HMSET, EXPIRE and
return {1, capacity - level, now + windowMs}; otherwise write nothing and
return {0, 0, now + timeNeeded*1000, timeNeeded}. -/
def leakyBucketScript (capacity leakRate : ℚ) (now windowMs : ℤ)
    (st : LBStore) : ScriptReply × LBStore :=
  let level0 : ℚ := match st.bucket with | some b => b.level | none => 0
  let lastLeak : ℤ := match st.bucket with | some b => b.lastLeak | none => now
  let timePassed : ℚ := ((now - lastLeak : ℤ) : ℚ) / 1000
  let leaked : ℤ := ⌊timePassed * leakRate⌋
  let level : ℚ := max 0 (level0 - (leaked : ℚ))
  if level < capacity then
    ⟨⟨1, capacity - (level + 1), now + windowMs, none⟩,
     ⟨some ⟨level + 1, now⟩, some ⌈(windowMs : ℚ) / 1000⌉⟩⟩
  else
    let timeNeeded : ℤ := ⌈(level - capacity + 1) / leakRate⌉
    ⟨⟨0, 0, now + timeNeeded * 1000, some timeNeeded⟩, st⟩

/-- Redis converts a number in a Lua reply table to an integer reply by
truncating it toward zero (the C cast of the Lua double); that integer is
what the JS layer receives. -/
def luaTrunc (q : ℚ) : ℤ := if 0 ≤ q then ⌊q⌋ else ⌈q⌉

/-- JS post-processing of a script reply (rate-limit.service.ts lines
109-120 and 217-227, identical in both methods), applied to the
Redis-truncated integers: allowed is the strict comparison with 1,
remaining goes through Math.floor (the identity on the already-integer
reply), and retryAfter is kept only when the script returned a truthy
(nonzero) fourth element, Math.ceil of an integer also being the
identity. -/
def jsResult (r : ScriptReply) : RateLimitResult :=
  { allowed := decide (r.flag = 1)
    remaining := ((luaTrunc r.remaining : ℤ) : ℚ)
    resetTime := r.resetTime
    retryAfter := match r.retryAfter with
      | none => none
      | some t => if t = 0 then none else some t }

lemma luaTrunc_of_nonneg (q : ℚ) (h : 0 ≤ q) : luaTrunc q = ⌊q⌋ :=
  if_pos h

lemma luaTrunc_of_neg (q : ℚ) (h : q < 0) : luaTrunc q = ⌈q⌉ :=
  if_neg (not_le.mpr h)

lemma luaTrunc_intCast (n : ℤ) : luaTrunc ((n : ℤ) : ℚ) = n := by
  rcases le_or_lt 0 ((n : ℤ) : ℚ) with h | h
  · rw [luaTrunc_of_nonneg _ h, Int.floor_intCast]
  · rw [luaTrunc_of_neg _ h, Int.ceil_intCast]

lemma luaTrunc_zero : luaTrunc 0 = 0 := by
  rw [luaTrunc_of_nonneg 0 le_rfl, Int.floor_zero]

/-- Policy fallback shared by both checks: fail-open returns an allowance at
full capacity with no retryAfter, fail-closed returns a denial with
retryAfter = windowSeconds (rate-limit.service.ts lines 45-64, 126-141,
159-172, 233-247). -/
def fallbackResult (skip : Bool) (capacity : ℚ) (windowSeconds now : ℤ) :
    RateLimitResult :=
  if skip then
    ⟨true, capacity, now + windowSeconds * 1000, none⟩
  else
    ⟨false, 0, now + windowSeconds * 1000, some windowSeconds⟩

/-- checkTokenBucket (rate-limit.service.ts lines 33-143).  healthy is the
RedisService.isHealthy() reading, skip the RATE_LIMIT_SKIP_IF_REDIS_DOWN
policy flag, evalFails injects a runtime failure of the attempted
redis.eval call.  When unhealthy the store is not touched at all; when the
attempted call fails the same policy fallback is returned. -/
def checkTokenBucket (healthy skip : Bool) (capacity refillRate : ℚ)
    (windowSeconds now : ℤ) (evalFails : Bool) (st : TBStore) :
    RateLimitResult × TBStore :=
  if !healthy then
    ⟨fallbackResult skip capacity windowSeconds now, st⟩
  else if evalFails then
    ⟨fallbackResult skip capacity windowSeconds now, st⟩
  else
    ⟨jsResult (tokenBucketScript capacity refillRate now (windowSeconds * 1000) st).1,
     (tokenBucketScript capacity refillRate now (windowSeconds * 1000) st).2⟩

/-- checkLeakyBucket (rate-limit.service.ts lines 149-249), same structure
as checkTokenBucket. -/
def checkLeakyBucket (healthy skip : Bool) (capacity leakRate : ℚ)
    (windowSeconds now : ℤ) (evalFails : Bool) (st : LBStore) :
    RateLimitResult × LBStore :=
  if !healthy then
    ⟨fallbackResult skip capacity windowSeconds now, st⟩
  else if evalFails then
    ⟨fallbackResult skip capacity windowSeconds now, st⟩
  else
    ⟨jsResult (leakyBucketScript capacity leakRate now (windowSeconds * 1000) st).1,
     (leakyBucketScript capacity leakRate now (windowSeconds * 1000) st).2⟩

/-- Store state after n healthy back-to-back checkTokenBucket calls (no
elapsed time, bucket absent at the start). -/
def tbRun (capacity refillRate : ℚ) (windowSeconds now : ℤ) : ℕ → TBStore
  | 0 => TBStore.empty
  | n + 1 =>
      (checkTokenBucket true true capacity refillRate windowSeconds now false
        (tbRun capacity refillRate windowSeconds now n)).2

/-- Result of the (n+1)-st call in that sequence (0-indexed). -/
def tbResult (capacity refillRate : ℚ) (windowSeconds now : ℤ) (n : ℕ) :
    RateLimitResult :=
  (checkTokenBucket true true capacity refillRate windowSeconds now false
    (tbRun capacity refillRate windowSeconds now n)).1

lemma checkTokenBucket_healthy (skip : Bool) (cap R : ℚ) (ws now : ℤ)
    (st : TBStore) :
    checkTokenBucket true skip cap R ws now false st =
      ⟨jsResult (tokenBucketScript cap R now (ws * 1000) st).1,
       (tokenBucketScript cap R now (ws * 1000) st).2⟩ := rfl

lemma checkLeakyBucket_healthy (skip : Bool) (cap R : ℚ) (ws now : ℤ)
    (st : LBStore) :
    checkLeakyBucket true skip cap R ws now false st =
      ⟨jsResult (leakyBucketScript cap R now (ws * 1000) st).1,
       (leakyBucketScript cap R now (ws * 1000) st).2⟩ := rfl

lemma tokenBucketScript_present (cap R t : ℚ) (now wMs : ℤ) (e : Option ℤ)
    (ht : t ≤ cap) :
    tokenBucketScript cap R now wMs ⟨some ⟨t, now⟩, e⟩ =
      if 1 ≤ t then
        ⟨⟨1, t - 1, now + wMs, none⟩,
         ⟨some ⟨t - 1, now⟩, some ⌈(wMs : ℚ) / 1000⌉⟩⟩
      else
        ⟨⟨0, t, now + ⌈(1 - t) / R⌉ * 1000, some ⌈(1 - t) / R⌉⟩,
         ⟨some ⟨t, now⟩, e⟩⟩ := by
  simp only [tokenBucketScript, sub_self, Int.cast_zero, zero_div, zero_mul,
    Int.floor_zero, add_zero, min_eq_right ht]

lemma tokenBucketScript_absent (cap R : ℚ) (now wMs : ℤ) :
    tokenBucketScript cap R now wMs TBStore.empty =
      if 1 ≤ cap then
        ⟨⟨1, cap - 1, now + wMs, none⟩,
         ⟨some ⟨cap - 1, now⟩, some ⌈(wMs : ℚ) / 1000⌉⟩⟩
      else
        ⟨⟨0, cap, now + ⌈(1 - cap) / R⌉ * 1000, some ⌈(1 - cap) / R⌉⟩,
         TBStore.empty⟩ := by
  simp only [tokenBucketScript, TBStore.empty, sub_self, Int.cast_zero,
    zero_div, zero_mul, Int.floor_zero, add_zero, min_self]

lemma tbRun_spec (C : ℕ) (hC : 0 < C) (R : ℚ) (ws now : ℤ) :
    ∀ n : ℕ, tbRun (C : ℚ) R ws now n =
      if n = 0 then TBStore.empty
      else ⟨some ⟨(C : ℚ) - ((min n C : ℕ) : ℚ), now⟩,
            some ⌈((ws * 1000 : ℤ) : ℚ) / 1000⌉⟩ := by
  intro n
  induction n with
  | zero => rfl
  | succ n ih =>
    show (checkTokenBucket true true (C : ℚ) R ws now false
      (tbRun (C : ℚ) R ws now n)).2 = _
    rw [ih, checkTokenBucket_healthy]
    by_cases h0 : n = 0
    · subst h0
      rw [if_pos rfl, tokenBucketScript_absent]
      have hC1 : (1 : ℚ) ≤ (C : ℚ) := by exact_mod_cast hC
      rw [if_pos hC1, if_neg (by omega : ¬ 0 + 1 = 0)]
      have hmin1 : min (0 + 1) C = 1 := by omega
      rw [hmin1]
      simp
    · rw [if_neg h0]
      rw [tokenBucketScript_present _ _ _ _ _ _ (by
        have : (0 : ℚ) ≤ ((min n C : ℕ) : ℚ) := by positivity
        linarith)]
      rw [if_neg (by omega : ¬ n + 1 = 0)]
      by_cases hn : n < C
      · have hmin : min n C = n := by omega
        have h1 : (1 : ℚ) ≤ (C : ℚ) - ((min n C : ℕ) : ℚ) := by
          rw [hmin]
          have : (n : ℚ) + 1 ≤ (C : ℚ) := by exact_mod_cast hn
          linarith
        rw [if_pos h1]
        have hmin1 : min (n + 1) C = n + 1 := by omega
        have hval : (C : ℚ) - ((min n C : ℕ) : ℚ) - 1 =
            (C : ℚ) - ((min (n + 1) C : ℕ) : ℚ) := by
          rw [hmin, hmin1]; push_cast; ring
        rw [hval]
      · have hmin : min n C = C := by omega
        have h1 : ¬ (1 : ℚ) ≤ (C : ℚ) - ((min n C : ℕ) : ℚ) := by
          rw [hmin]; simp
        rw [if_neg h1]
        have hsame : min n C = min (n + 1) C := by omega
        rw [hsame]

lemma tbResult_spec (C : ℕ) (hC : 0 < C) (R : ℚ) (hR : 0 < R)
    (ws now : ℤ) (n : ℕ) :
    tbResult (C : ℚ) R ws now n =
      if n < C then ⟨true, (C : ℚ) - ((n : ℚ) + 1), now + ws * 1000, none⟩
      else ⟨false, 0, now + ⌈1 / R⌉ * 1000, some ⌈1 / R⌉⟩ := by
  unfold tbResult
  rw [tbRun_spec C hC R ws now n, checkTokenBucket_healthy]
  have hceil : (1 : ℤ) ≤ ⌈1 / R⌉ := by
    have : (0 : ℚ) < 1 / R := by positivity
    exact Int.ceil_pos.mpr this
  by_cases h0 : n = 0
  · subst h0
    rw [if_pos rfl, tokenBucketScript_absent]
    have hC1 : (1 : ℚ) ≤ (C : ℚ) := by exact_mod_cast hC
    rw [if_pos hC1, if_pos hC]
    have hf : luaTrunc ((C : ℚ) - 1) = (C : ℤ) - 1 := by
      rw [show (C : ℚ) - 1 = ((C - 1 : ℤ) : ℚ) by push_cast; ring]
      exact luaTrunc_intCast _
    simp only [jsResult, hf]
    simp
    try push_cast
    try ring
  · rw [if_neg h0]
    rw [tokenBucketScript_present _ _ _ _ _ _ (by
      have : (0 : ℚ) ≤ ((min n C : ℕ) : ℚ) := by positivity
      linarith)]
    by_cases hn : n < C
    · have hmin : min n C = n := by omega
      have h1 : (1 : ℚ) ≤ (C : ℚ) - ((min n C : ℕ) : ℚ) := by
        rw [hmin]
        have : (n : ℚ) + 1 ≤ (C : ℚ) := by exact_mod_cast hn
        linarith
      rw [if_pos h1, if_pos hn, hmin]
      have hf : luaTrunc ((C : ℚ) - (n : ℚ) - 1) = (C : ℤ) - (n : ℤ) - 1 := by
        rw [show (C : ℚ) - (n : ℚ) - 1 = ((C - n - 1 : ℤ) : ℚ) by push_cast; ring]
        exact luaTrunc_intCast _
      simp only [jsResult, hf]
      simp
      try push_cast
      try ring
    · have hmin : min n C = C := by omega
      have hz : (C : ℚ) - ((min n C : ℕ) : ℚ) = 0 := by rw [hmin]; ring
      have h1 : ¬ (1 : ℚ) ≤ (C : ℚ) - ((min n C : ℕ) : ℚ) := by
        rw [hz]; norm_num
      rw [if_neg h1, if_neg hn, hz]
      rw [show (1 : ℚ) - 0 = 1 from by ring]
      simp only [jsResult, luaTrunc_zero]
      rw [if_neg (by omega : ¬ ⌈(1 : ℚ) / R⌉ = 0)]
      simp

/-- C1: with a healthy store and no elapsed time between calls, the first C
checkTokenBucket calls for an identifier are allowed and every later call is
denied; the reported remaining stays within [0, C]; and for capacity 1,
refill rate 1 the first call is allowed with remaining 0 while the immediate
second call is denied with retryAfter 1. -/
theorem tokenBucket_burst_exactly_capacity (C : ℕ) (hC : 0 < C) (R : ℚ)
    (hR : 0 < R) (ws now : ℤ) (n : ℕ) :
    ((tbResult (C : ℚ) R ws now n).allowed = decide (n < C)) ∧
    (0 ≤ (tbResult (C : ℚ) R ws now n).remaining ∧
      (tbResult (C : ℚ) R ws now n).remaining ≤ (C : ℚ)) ∧
    tbResult 1 1 ws now 0 = ⟨true, 0, now + ws * 1000, none⟩ ∧
    tbResult 1 1 ws now 1 = ⟨false, 0, now + 1000, some 1⟩ := by
  refine ⟨?_, ⟨?_, ?_⟩, ?_, ?_⟩
  · rw [tbResult_spec C hC R hR ws now n]
    by_cases hn : n < C
    · simp [hn]
    · simp [hn]
  · rw [tbResult_spec C hC R hR ws now n]
    by_cases hn : n < C
    · have : (n : ℚ) + 1 ≤ (C : ℚ) := by exact_mod_cast hn
      simp only [if_pos hn]
      linarith
    · simp [hn]
  · rw [tbResult_spec C hC R hR ws now n]
    by_cases hn : n < C
    · have : (0 : ℚ) ≤ (n : ℚ) := by positivity
      simp only [if_pos hn]
      linarith
    · simp only [if_neg hn]
      exact_mod_cast Nat.zero_le C
  · have h := tbResult_spec 1 (by norm_num) 1 (by norm_num) ws now 0
    norm_num at h
    rw [h]
  · have h := tbResult_spec 1 (by norm_num) 1 (by norm_num) ws now 1
    norm_num at h
    rw [h]

/-- Witness for C1 at capacity 2, rate 1. -/
theorem tokenBucket_burst_exactly_capacity_witness :
    (0 < 2 ∧ (0 : ℚ) < 1) ∧
    (((tbResult ((2 : ℕ) : ℚ) 1 60 0 1).allowed = decide (1 < 2)) ∧
    (0 ≤ (tbResult ((2 : ℕ) : ℚ) 1 60 0 1).remaining ∧
      (tbResult ((2 : ℕ) : ℚ) 1 60 0 1).remaining ≤ ((2 : ℕ) : ℚ)) ∧
    tbResult 1 1 60 0 0 = ⟨true, 0, 0 + 60 * 1000, none⟩ ∧
    tbResult 1 1 60 0 1 = ⟨false, 0, 0 + 1000, some 1⟩) :=
  ⟨⟨by norm_num, by norm_num⟩,
   tokenBucket_burst_exactly_capacity 2 (by norm_num) 1 (by norm_num) 60 0 1⟩

/-- Integer-valued leaky-bucket state (the states the code itself produces
for integer capacities) injected into the stored representation. -/
def lbStoreOf (bkt : Option (ℤ × ℤ)) (e : Option ℤ) : LBStore :=
  ⟨bkt.map (fun p => ⟨(p.1 : ℚ), p.2⟩), e⟩

/-- Drained level as the specification describes it:
max(0, storedLevel - floor((now - lastLeak)/1000 * leakRate)), with the
stored pair defaulting to (0, now) when the bucket is absent. -/
def leakLevel (bkt : Option (ℤ × ℤ)) (leakRate : ℚ) (now : ℤ) : ℤ :=
  max 0 ((bkt.map Prod.fst).getD 0 -
    ⌊((now - (bkt.map Prod.snd).getD now : ℤ) : ℚ) / 1000 * leakRate⌋)

lemma leakyBucketScript_eval (capacity : ℤ) (leakRate : ℚ)
    (bkt : Option (ℤ × ℤ)) (e : Option ℤ) (now wMs : ℤ) :
    leakyBucketScript (capacity : ℚ) leakRate now wMs (lbStoreOf bkt e) =
      if ((leakLevel bkt leakRate now : ℤ) : ℚ) < (capacity : ℚ) then
        ⟨⟨1, (capacity : ℚ) - (((leakLevel bkt leakRate now : ℤ) : ℚ) + 1),
          now + wMs, none⟩,
         ⟨some ⟨((leakLevel bkt leakRate now : ℤ) : ℚ) + 1, now⟩,
          some ⌈(wMs : ℚ) / 1000⌉⟩⟩
      else
        ⟨⟨0, 0,
          now + ⌈(((leakLevel bkt leakRate now : ℤ) : ℚ) - (capacity : ℚ) + 1) /
            leakRate⌉ * 1000,
          some ⌈(((leakLevel bkt leakRate now : ℤ) : ℚ) - (capacity : ℚ) + 1) /
            leakRate⌉⟩,
         lbStoreOf bkt e⟩ := by
  rcases bkt with _ | ⟨lvl, ll⟩
  · have hL : leakLevel none leakRate now = 0 := by
      simp [leakLevel]
    rw [hL]
    simp only [leakyBucketScript, lbStoreOf, Option.map_none', Int.cast_zero]
    simp
  · have hL : ((leakLevel (some (lvl, ll)) leakRate now : ℤ) : ℚ) =
        max 0 ((lvl : ℚ) -
          ((⌊((now - ll : ℤ) : ℚ) / 1000 * leakRate⌋ : ℤ) : ℚ)) := by
      unfold leakLevel
      push_cast [Int.cast_max]
      simp
    rw [hL]
    simp [leakyBucketScript, lbStoreOf]

/-- C2 (amended to integer capacities and stored levels, the states the code
itself produces): checkLeakyBucket against a healthy store drains the level
by floor(elapsedSeconds * leakRate) clamped at 0 (level 0 when the bucket is
absent), admits and persists level+1 with remaining = capacity - (level+1)
while the drained level is below capacity, and otherwise denies with
remaining = 0 and retryAfter = ceil((level - capacity + 1)/leakRate); for
capacity 1, leak rate 1 the first call from an empty bucket is allowed with
remaining 0 and the immediate second call is denied with retryAfter 1. -/
theorem leakyBucket_formula (capacity : ℤ) (hcap : 0 < capacity)
    (leakRate : ℚ) (hlr : 0 < leakRate) (bkt : Option (ℤ × ℤ))
    (e : Option ℤ) (ws now : ℤ) :
    (leakLevel bkt leakRate now < capacity →
      checkLeakyBucket true true (capacity : ℚ) leakRate ws now false
          (lbStoreOf bkt e) =
        ⟨⟨true, ((capacity - (leakLevel bkt leakRate now + 1) : ℤ) : ℚ),
          now + ws * 1000, none⟩,
         ⟨some ⟨((leakLevel bkt leakRate now + 1 : ℤ) : ℚ), now⟩,
          some ⌈((ws * 1000 : ℤ) : ℚ) / 1000⌉⟩⟩) ∧
    (capacity ≤ leakLevel bkt leakRate now →
      checkLeakyBucket true true (capacity : ℚ) leakRate ws now false
          (lbStoreOf bkt e) =
        ⟨⟨false, 0,
          now + ⌈((leakLevel bkt leakRate now - capacity + 1 : ℤ) : ℚ) /
            leakRate⌉ * 1000,
          some ⌈((leakLevel bkt leakRate now - capacity + 1 : ℤ) : ℚ) /
            leakRate⌉⟩,
         lbStoreOf bkt e⟩) ∧
    (checkLeakyBucket true true 1 1 ws now false LBStore.empty).1 =
      ⟨true, 0, now + ws * 1000, none⟩ ∧
    (checkLeakyBucket true true 1 1 ws now false
      (checkLeakyBucket true true 1 1 ws now false LBStore.empty).2).1 =
      ⟨false, 0, now + 1000, some 1⟩ := by
  have hfirst : checkLeakyBucket true true 1 1 ws now false LBStore.empty =
      ⟨⟨true, 0, now + ws * 1000, none⟩,
       ⟨some ⟨1, now⟩, some ⌈((ws * 1000 : ℤ) : ℚ) / 1000⌉⟩⟩ := by
    rw [checkLeakyBucket_healthy]
    simp only [leakyBucketScript, LBStore.empty]
    norm_num [jsResult, luaTrunc]
  refine ⟨?_, ?_, ?_, ?_⟩
  · intro h
    rw [checkLeakyBucket_healthy, leakyBucketScript_eval]
    rw [if_pos (by exact_mod_cast h)]
    have hf : luaTrunc ((capacity : ℚ) -
        (((leakLevel bkt leakRate now : ℤ) : ℚ) + 1)) =
        capacity - (leakLevel bkt leakRate now + 1) := by
      rw [show (capacity : ℚ) - (((leakLevel bkt leakRate now : ℤ) : ℚ) + 1) =
        ((capacity - (leakLevel bkt leakRate now + 1) : ℤ) : ℚ) by push_cast; ring]
      exact luaTrunc_intCast _
    have hs : ((leakLevel bkt leakRate now + 1 : ℤ) : ℚ) =
        ((leakLevel bkt leakRate now : ℤ) : ℚ) + 1 := by
      push_cast
      ring
    rw [hs]
    simp only [jsResult, hf]
    simp
  · intro h
    rw [checkLeakyBucket_healthy, leakyBucketScript_eval]
    rw [if_neg (by
      push_cast
      exact not_lt.mpr (by exact_mod_cast h))]
    have ht : ((leakLevel bkt leakRate now - capacity + 1 : ℤ) : ℚ) =
        ((leakLevel bkt leakRate now : ℤ) : ℚ) - (capacity : ℚ) + 1 := by
      push_cast
      ring
    rw [ht]
    have hpos : (1 : ℤ) ≤
        ⌈(((leakLevel bkt leakRate now : ℤ) : ℚ) - (capacity : ℚ) + 1) /
          leakRate⌉ := by
      refine Int.ceil_pos.mpr (div_pos ?_ hlr)
      have hge : (capacity : ℚ) ≤ ((leakLevel bkt leakRate now : ℤ) : ℚ) := by
        exact_mod_cast h
      linarith
    simp only [jsResult, luaTrunc_zero]
    rw [if_neg (by omega)]
    simp
  · rw [hfirst]
  · rw [hfirst]
    rw [checkLeakyBucket_healthy]
    simp only [leakyBucketScript]
    norm_num [jsResult, Int.ceil_intCast, luaTrunc]

/-- Witness for the amended C2 at capacity 2, leak rate 1, stored level 1. -/
theorem leakyBucket_formula_witness :
    ((0 : ℤ) < 2 ∧ (0 : ℚ) < 1) ∧
    ((leakLevel (some (1, 0)) 1 0 < 2 →
      checkLeakyBucket true true ((2 : ℤ) : ℚ) 1 60 0 false
          (lbStoreOf (some (1, 0)) none) =
        ⟨⟨true, ((2 - (leakLevel (some (1, 0)) 1 0 + 1) : ℤ) : ℚ),
          0 + 60 * 1000, none⟩,
         ⟨some ⟨((leakLevel (some (1, 0)) 1 0 + 1 : ℤ) : ℚ), 0⟩,
          some ⌈((60 * 1000 : ℤ) : ℚ) / 1000⌉⟩⟩) ∧
    ((2 : ℤ) ≤ leakLevel (some (1, 0)) 1 0 →
      checkLeakyBucket true true ((2 : ℤ) : ℚ) 1 60 0 false
          (lbStoreOf (some (1, 0)) none) =
        ⟨⟨false, 0,
          0 + ⌈((leakLevel (some (1, 0)) 1 0 - 2 + 1 : ℤ) : ℚ) / 1⌉ * 1000,
          some ⌈((leakLevel (some (1, 0)) 1 0 - 2 + 1 : ℤ) : ℚ) / 1⌉⟩,
         lbStoreOf (some (1, 0)) none⟩) ∧
    (checkLeakyBucket true true 1 1 60 0 false LBStore.empty).1 =
      ⟨true, 0, 0 + 60 * 1000, none⟩ ∧
    (checkLeakyBucket true true 1 1 60 0 false
      (checkLeakyBucket true true 1 1 60 0 false LBStore.empty).2).1 =
      ⟨false, 0, 0 + 1000, some 1⟩) :=
  ⟨⟨by norm_num, by norm_num⟩,
   leakyBucket_formula 2 (by norm_num) 1 (by norm_num) (some (1, 0)) none 60 0⟩

/-- C2 as literally stated fails for a non-integral capacity: with capacity
3/2, leak rate 1 and stored level 1 (a state reachable from an empty bucket
by one call with that capacity), the call is admitted and its reply value
capacity - (level+1) = -1/2 reaches JS as the Redis-truncated integer 0, so
the code reports remaining 0, not the claimed capacity - (level+1). -/
theorem leakyBucket_remaining_counterexample :
    (checkLeakyBucket true true (3 / 2) 1 60 0 false
      ⟨some ⟨1, 0⟩, none⟩).1.allowed = true ∧
    (checkLeakyBucket true true (3 / 2) 1 60 0 false
      ⟨some ⟨1, 0⟩, none⟩).1.remaining = 0 ∧
    (3 : ℚ) / 2 - (1 + 1) = -(1 / 2) ∧ ((0 : ℚ) ≠ -(1 / 2)) := by
  refine ⟨?_, ?_, by norm_num, by norm_num⟩
  · rw [checkLeakyBucket_healthy]
    simp only [leakyBucketScript]
    norm_num [jsResult]
  · rw [checkLeakyBucket_healthy]
    simp only [leakyBucketScript]
    norm_num [jsResult, luaTrunc, Int.ceil_eq_iff]

/-- C3: when the health monitor reports unhealthy both checks return the
policy fallback without touching the store (the returned store is exactly the
input store), and a genuinely attempted store operation that raises at
runtime produces the same policy-determined result: fail-open gives
allowed=true, remaining=capacity, no retryAfter; fail-closed gives
allowed=false, remaining=0, retryAfter=windowSeconds. -/
theorem failPolicy_fallback (capacity rate : ℚ) (ws now : ℤ)
    (evalFails : Bool) (tst : TBStore) (lst : LBStore) :
    (checkTokenBucket false true capacity rate ws now evalFails tst =
      ⟨⟨true, capacity, now + ws * 1000, none⟩, tst⟩) ∧
    (checkTokenBucket false false capacity rate ws now evalFails tst =
      ⟨⟨false, 0, now + ws * 1000, some ws⟩, tst⟩) ∧
    (checkLeakyBucket false true capacity rate ws now evalFails lst =
      ⟨⟨true, capacity, now + ws * 1000, none⟩, lst⟩) ∧
    (checkLeakyBucket false false capacity rate ws now evalFails lst =
      ⟨⟨false, 0, now + ws * 1000, some ws⟩, lst⟩) ∧
    (checkTokenBucket true true capacity rate ws now true tst =
      ⟨⟨true, capacity, now + ws * 1000, none⟩, tst⟩) ∧
    (checkTokenBucket true false capacity rate ws now true tst =
      ⟨⟨false, 0, now + ws * 1000, some ws⟩, tst⟩) ∧
    (checkLeakyBucket true true capacity rate ws now true lst =
      ⟨⟨true, capacity, now + ws * 1000, none⟩, lst⟩) ∧
    (checkLeakyBucket true false capacity rate ws now true lst =
      ⟨⟨false, 0, now + ws * 1000, some ws⟩, lst⟩) :=
  ⟨rfl, rfl, rfl, rfl, rfl, rfl, rfl, rfl⟩

/-- Tokens available after the refill step of the token-bucket script:
min(capacity, stored + floor(elapsedSeconds * refillRate)), the stored pair
defaulting to (capacity, now) when the bucket is absent. -/
def refilledTokens (cap R : ℚ) (now : ℤ) (st : TBStore) : ℚ :=
  min cap ((match st.bucket with | some b => b.tokens | none => cap) +
    ((⌊((now - (match st.bucket with
        | some b => b.lastRefill
        | none => now) : ℤ) : ℚ) / 1000 * R⌋ : ℤ) : ℚ))

lemma tokenBucketScript_eq (cap R : ℚ) (now wMs : ℤ) (st : TBStore) :
    tokenBucketScript cap R now wMs st =
      if 1 ≤ refilledTokens cap R now st then
        ⟨⟨1, refilledTokens cap R now st - 1, now + wMs, none⟩,
         ⟨some ⟨refilledTokens cap R now st - 1, now⟩,
          some ⌈(wMs : ℚ) / 1000⌉⟩⟩
      else
        ⟨⟨0, refilledTokens cap R now st,
          now + ⌈(1 - refilledTokens cap R now st) / R⌉ * 1000,
          some ⌈(1 - refilledTokens cap R now st) / R⌉⟩, st⟩ := rfl

lemma refilledTokens_bounds (cap R : ℚ) (hcap : 0 < cap) (hR : 0 < R)
    (now : ℤ) (st : TBStore)
    (hst : ∀ b, st.bucket = some b → 0 ≤ b.tokens ∧ b.lastRefill ≤ now) :
    0 ≤ refilledTokens cap R now st ∧ refilledTokens cap R now st ≤ cap := by
  unfold refilledTokens
  refine ⟨le_min (le_of_lt hcap) ?_, min_le_left _ _⟩
  rcases hbk : st.bucket with _ | b
  · simp only [hbk]
    have : (0 : ℚ) ≤ ((⌊((now - now : ℤ) : ℚ) / 1000 * R⌋ : ℤ) : ℚ) := by
      simp
    linarith
  · obtain ⟨h1, h2⟩ := hst b hbk
    simp only [hbk]
    have hfl : (0 : ℤ) ≤ ⌊((now - b.lastRefill : ℤ) : ℚ) / 1000 * R⌋ := by
      refine Int.floor_nonneg.mpr ?_
      have : (0 : ℚ) ≤ ((now - b.lastRefill : ℤ) : ℚ) := by
        exact_mod_cast sub_nonneg.mpr h2
      positivity
    have : (0 : ℚ) ≤ ((⌊((now - b.lastRefill : ℤ) : ℚ) / 1000 * R⌋ : ℤ) : ℚ) := by
      exact_mod_cast hfl
    linarith

lemma tokenCheck_result_bounds (cap R : ℚ) (hcap : 0 < cap) (hR : 0 < R)
    (ws now : ℤ) (hws : 0 < ws) (healthy skip evalFails : Bool)
    (st : TBStore)
    (hst : ∀ b, st.bucket = some b → 0 ≤ b.tokens ∧ b.lastRefill ≤ now) :
    0 ≤ (checkTokenBucket healthy skip cap R ws now evalFails st).1.remaining ∧
    (checkTokenBucket healthy skip cap R ws now evalFails st).1.remaining ≤ cap ∧
    now ≤ (checkTokenBucket healthy skip cap R ws now evalFails st).1.resetTime ∧
    ((checkTokenBucket healthy skip cap R ws now evalFails st).1.allowed = true →
      (checkTokenBucket healthy skip cap R ws now evalFails st).1.retryAfter = none) := by
  have hwin : now ≤ now + ws * 1000 := by nlinarith
  have hfall : ∀ sk : Bool,
      0 ≤ (fallbackResult sk cap ws now).remaining ∧
      (fallbackResult sk cap ws now).remaining ≤ cap ∧
      now ≤ (fallbackResult sk cap ws now).resetTime ∧
      ((fallbackResult sk cap ws now).allowed = true →
        (fallbackResult sk cap ws now).retryAfter = none) := by
    intro sk
    cases sk
    · exact ⟨le_refl 0, le_of_lt hcap, hwin, by simp [fallbackResult]⟩
    · exact ⟨le_of_lt hcap, le_refl cap, hwin, by simp [fallbackResult]⟩
  cases healthy
  · exact hfall skip
  · cases evalFails
    · rw [checkTokenBucket_healthy, tokenBucketScript_eq]
      obtain ⟨hq0, hqc⟩ := refilledTokens_bounds cap R hcap hR now st hst
      by_cases h1 : 1 ≤ refilledTokens cap R now st
      · rw [if_pos h1]
        have htr : luaTrunc (refilledTokens cap R now st - 1) =
            ⌊refilledTokens cap R now st - 1⌋ :=
          luaTrunc_of_nonneg _ (by linarith)
        refine ⟨?_, ?_, hwin, by simp [jsResult]⟩
        · simp only [jsResult, htr]
          have : (0 : ℤ) ≤ ⌊refilledTokens cap R now st - 1⌋ :=
            Int.floor_nonneg.mpr (by linarith)
          exact_mod_cast this
        · simp only [jsResult, htr]
          have hle : (⌊refilledTokens cap R now st - 1⌋ : ℚ) ≤
              refilledTokens cap R now st - 1 := Int.floor_le _
          linarith
      · rw [if_neg h1]
        push_neg at h1
        have hfl0 : ⌊refilledTokens cap R now st⌋ = 0 :=
          Int.floor_eq_zero_iff.mpr ⟨hq0, h1⟩
        have htr0 : luaTrunc (refilledTokens cap R now st) = 0 := by
          rw [luaTrunc_of_nonneg _ hq0, hfl0]
        have htn : (1 : ℤ) ≤ ⌈(1 - refilledTokens cap R now st) / R⌉ := by
          refine Int.ceil_pos.mpr (div_pos (by linarith) hR)
        refine ⟨?_, ?_, ?_, ?_⟩
        · simp [jsResult, htr0]
        · simp [jsResult, htr0]
          linarith
        · simp only [jsResult]
          nlinarith
        · simp [jsResult]
    · exact hfall skip

/-- Drained level the leaky script computes before the admission test:
max(0, storedLevel - floor(elapsedSeconds * leakRate)), the stored pair
defaulting to (0, now) when the bucket is absent. -/
def drainedLevel (leakRate : ℚ) (now : ℤ) (st : LBStore) : ℚ :=
  max 0 ((match st.bucket with | some b => b.level | none => 0) -
    ((⌊((now - (match st.bucket with
        | some b => b.lastLeak
        | none => now) : ℤ) : ℚ) / 1000 * leakRate⌋ : ℤ) : ℚ))

lemma leakyBucketScript_eq (cap R : ℚ) (now wMs : ℤ) (st : LBStore) :
    leakyBucketScript cap R now wMs st =
      if drainedLevel R now st < cap then
        ⟨⟨1, cap - (drainedLevel R now st + 1), now + wMs, none⟩,
         ⟨some ⟨drainedLevel R now st + 1, now⟩,
          some ⌈(wMs : ℚ) / 1000⌉⟩⟩
      else
        ⟨⟨0, 0,
          now + ⌈(drainedLevel R now st - cap + 1) / R⌉ * 1000,
          some ⌈(drainedLevel R now st - cap + 1) / R⌉⟩, st⟩ := rfl

lemma leakyCheck_result_bounds (cap R : ℚ) (hcap : 0 < cap) (hR : 0 < R)
    (ws now : ℤ) (hws : 0 < ws) (healthy skip evalFails : Bool)
    (st : LBStore) :
    0 ≤ (checkLeakyBucket healthy skip cap R ws now evalFails st).1.remaining ∧
    (checkLeakyBucket healthy skip cap R ws now evalFails st).1.remaining ≤ cap ∧
    now ≤ (checkLeakyBucket healthy skip cap R ws now evalFails st).1.resetTime ∧
    ((checkLeakyBucket healthy skip cap R ws now evalFails st).1.allowed = true →
      (checkLeakyBucket healthy skip cap R ws now evalFails st).1.retryAfter = none) := by
  have hwin : now ≤ now + ws * 1000 := by nlinarith
  have hfall : ∀ sk : Bool,
      0 ≤ (fallbackResult sk cap ws now).remaining ∧
      (fallbackResult sk cap ws now).remaining ≤ cap ∧
      now ≤ (fallbackResult sk cap ws now).resetTime ∧
      ((fallbackResult sk cap ws now).allowed = true →
        (fallbackResult sk cap ws now).retryAfter = none) := by
    intro sk
    cases sk
    · exact ⟨le_refl 0, le_of_lt hcap, hwin, by simp [fallbackResult]⟩
    · exact ⟨le_of_lt hcap, le_refl cap, hwin, by simp [fallbackResult]⟩
  cases healthy
  · exact hfall skip
  · cases evalFails
    · rw [checkLeakyBucket_healthy, leakyBucketScript_eq]
      have hL0 : 0 ≤ drainedLevel R now st := le_max_left _ _
      by_cases hc : drainedLevel R now st < cap
      · rw [if_pos hc]
        have hv1 : (-1 : ℚ) < cap - (drainedLevel R now st + 1) := by
          linarith
        have hv2 : cap - (drainedLevel R now st + 1) ≤ cap := by linarith
        refine ⟨?_, ?_, hwin, by simp [jsResult]⟩
        · simp only [jsResult]
          rcases le_or_lt 0 (cap - (drainedLevel R now st + 1)) with hv | hv
          · rw [luaTrunc_of_nonneg _ hv]
            have : (0 : ℤ) ≤ ⌊cap - (drainedLevel R now st + 1)⌋ :=
              Int.floor_nonneg.mpr hv
            exact_mod_cast this
          · rw [luaTrunc_of_neg _ hv]
            have hle : ⌈cap - (drainedLevel R now st + 1)⌉ ≤ 0 :=
              Int.ceil_le.mpr (by exact_mod_cast le_of_lt hv)
            have hgt : (-1 : ℤ) < ⌈cap - (drainedLevel R now st + 1)⌉ :=
              Int.lt_ceil.mpr (by exact_mod_cast hv1)
            have : ⌈cap - (drainedLevel R now st + 1)⌉ = 0 := by omega
            rw [this]
            norm_num
        · simp only [jsResult]
          rcases le_or_lt 0 (cap - (drainedLevel R now st + 1)) with hv | hv
          · rw [luaTrunc_of_nonneg _ hv]
            have hle : (⌊cap - (drainedLevel R now st + 1)⌋ : ℚ) ≤
                cap - (drainedLevel R now st + 1) := Int.floor_le _
            linarith
          · rw [luaTrunc_of_neg _ hv]
            have hle : ⌈cap - (drainedLevel R now st + 1)⌉ ≤ 0 :=
              Int.ceil_le.mpr (by exact_mod_cast le_of_lt hv)
            have : ((⌈cap - (drainedLevel R now st + 1)⌉ : ℤ) : ℚ) ≤ 0 := by
              exact_mod_cast hle
            linarith
      · rw [if_neg hc]
        push_neg at hc
        have htn : (1 : ℤ) ≤ ⌈(drainedLevel R now st - cap + 1) / R⌉ :=
          Int.ceil_pos.mpr (div_pos (by linarith) hR)
        refine ⟨?_, ?_, ?_, by simp [jsResult]⟩
        · simp [jsResult, luaTrunc_zero]
        · simp [jsResult, luaTrunc_zero]
          linarith
        · simp only [jsResult]
          nlinarith
    · exact hfall skip

/-- C9: on every path of both checks — allowed, denied, fail-open and
fail-closed fallback — the reported remaining lies in [0, capacity], the
resetTime is no earlier than now, and retryAfter is absent whenever the call
is allowed.  The leaky-bucket half holds for every store state and every
rational capacity (the Redis truncation of the reply toward zero clamps a
fractional-capacity reply into range); the token-bucket half assumes the
stored bucket is well-formed (nonnegative tokens, lastRefill not in the
future), which every script-written state satisfies. -/
theorem rateLimit_result_bounds (cap R : ℚ) (hcap : 0 < cap) (hR : 0 < R)
    (ws now : ℤ) (hws : 0 < ws) (healthy skip evalFails : Bool)
    (st : TBStore)
    (hst : ∀ b, st.bucket = some b → 0 ≤ b.tokens ∧ b.lastRefill ≤ now)
    (cap2 : ℚ) (hcap2 : 0 < cap2) (lst : LBStore) :
    (0 ≤ (checkTokenBucket healthy skip cap R ws now evalFails st).1.remaining ∧
     (checkTokenBucket healthy skip cap R ws now evalFails st).1.remaining ≤ cap ∧
     now ≤ (checkTokenBucket healthy skip cap R ws now evalFails st).1.resetTime ∧
     ((checkTokenBucket healthy skip cap R ws now evalFails st).1.allowed = true →
       (checkTokenBucket healthy skip cap R ws now evalFails st).1.retryAfter = none)) ∧
    (0 ≤ (checkLeakyBucket healthy skip cap2 R ws now evalFails lst).1.remaining ∧
     (checkLeakyBucket healthy skip cap2 R ws now evalFails lst).1.remaining ≤ cap2 ∧
     now ≤ (checkLeakyBucket healthy skip cap2 R ws now evalFails lst).1.resetTime ∧
     ((checkLeakyBucket healthy skip cap2 R ws now evalFails lst).1.allowed = true →
       (checkLeakyBucket healthy skip cap2 R ws now evalFails lst).1.retryAfter = none)) :=
  ⟨tokenCheck_result_bounds cap R hcap hR ws now hws healthy skip evalFails
    st hst,
   leakyCheck_result_bounds cap2 R hcap2 hR ws now hws healthy skip evalFails
    lst⟩

/-- Witness for C9 at token capacity 5/2 (stored bucket (1, -3)) and leaky
capacity 3/2 (stored bucket (1, 0)), both healthy. -/
theorem rateLimit_result_bounds_witness :
    ((0 : ℚ) < 5/2 ∧ (0 : ℚ) < 1 ∧ (0 : ℤ) < 60 ∧
      (∀ b, (⟨some ⟨1, -3⟩, none⟩ : TBStore).bucket = some b →
        0 ≤ b.tokens ∧ b.lastRefill ≤ 0) ∧ (0 : ℚ) < 3/2) ∧
    ((0 ≤ (checkTokenBucket true true (5/2) 1 60 0 false
        ⟨some ⟨1, -3⟩, none⟩).1.remaining ∧
     (checkTokenBucket true true (5/2) 1 60 0 false
        ⟨some ⟨1, -3⟩, none⟩).1.remaining ≤ 5/2 ∧
     (0 : ℤ) ≤ (checkTokenBucket true true (5/2) 1 60 0 false
        ⟨some ⟨1, -3⟩, none⟩).1.resetTime ∧
     ((checkTokenBucket true true (5/2) 1 60 0 false
        ⟨some ⟨1, -3⟩, none⟩).1.allowed = true →
       (checkTokenBucket true true (5/2) 1 60 0 false
        ⟨some ⟨1, -3⟩, none⟩).1.retryAfter = none)) ∧
    (0 ≤ (checkLeakyBucket true true (3/2) 1 60 0 false
        ⟨some ⟨1, 0⟩, none⟩).1.remaining ∧
     (checkLeakyBucket true true (3/2) 1 60 0 false
        ⟨some ⟨1, 0⟩, none⟩).1.remaining ≤ 3/2 ∧
     (0 : ℤ) ≤ (checkLeakyBucket true true (3/2) 1 60 0 false
        ⟨some ⟨1, 0⟩, none⟩).1.resetTime ∧
     ((checkLeakyBucket true true (3/2) 1 60 0 false
        ⟨some ⟨1, 0⟩, none⟩).1.allowed = true →
       (checkLeakyBucket true true (3/2) 1 60 0 false
        ⟨some ⟨1, 0⟩, none⟩).1.retryAfter = none))) :=
  ⟨⟨by norm_num, by norm_num, by norm_num,
    by intro b hb; injection hb with h; subst h; norm_num, by norm_num⟩,
   rateLimit_result_bounds (5/2) 1 (by norm_num) (by norm_num) 60 0
     (by norm_num) true true false ⟨some ⟨1, -3⟩, none⟩
     (by intro b hb; injection hb with h; subst h; norm_num)
     (3/2) (by norm_num) ⟨some ⟨1, 0⟩, none⟩⟩

/-- C10: a denied token-bucket call (fewer than one token available after
refill) leaves the stored bucket exactly as it was — neither the
tokens/lastRefill fields nor the key expiry are written. -/
theorem tokenBucket_denial_frame (cap R : ℚ) (ws now : ℤ) (skip : Bool)
    (st : TBStore) (h : refilledTokens cap R now st < 1) :
    (checkTokenBucket true skip cap R ws now false st).2 = st ∧
    (checkTokenBucket true skip cap R ws now false st).1.allowed = false := by
  rw [checkTokenBucket_healthy, tokenBucketScript_eq,
    if_neg (not_le.mpr h)]
  exact ⟨rfl, by simp [jsResult]⟩

/-- Witness for C10: an emptied bucket (0 tokens just refilled) denies and
is returned untouched. -/
theorem tokenBucket_denial_frame_witness :
    refilledTokens 1 1 0 ⟨some ⟨0, 0⟩, none⟩ < 1 ∧
    ((checkTokenBucket true true 1 1 60 0 false ⟨some ⟨0, 0⟩, none⟩).2 =
      ⟨some ⟨0, 0⟩, none⟩ ∧
     (checkTokenBucket true true 1 1 60 0 false
       ⟨some ⟨0, 0⟩, none⟩).1.allowed = false) :=
  ⟨by norm_num [refilledTokens],
   tokenBucket_denial_frame 1 1 60 0 true ⟨some ⟨0, 0⟩, none⟩
     (by norm_num [refilledTokens])⟩

/-- Transport events the redis client emits and redis.service.ts listens to
(setupEventListeners, lines 14-44). -/
inductive HealthEvent
  | connectEv
  | readyEv
  | errorEv
  | closeEv
  | reconnectingEv
  | endEv
deriving DecidableEq, Repr

/-- Effect of one transport event on the isConnected flag: ready sets it,
close and end clear it, connect/error/reconnecting only log (the source
comments explicitly that errors may be transient and only close clears the
flag). -/
def applyEvent (isConnected : Bool) : HealthEvent → Bool
  | HealthEvent.connectEv => isConnected
  | HealthEvent.readyEv => true
  | HealthEvent.errorEv => isConnected
  | HealthEvent.closeEv => false
  | HealthEvent.reconnectingEv => isConnected
  | HealthEvent.endEv => false

/-- Outcome of the probe attempt redis.ping() makes. -/
inductive PingOutcome
  | pong
  | otherReply
  | raised
deriving DecidableEq, Repr

/-- RedisService.ping (lines 136-154): always attempts the probe, sets
isConnected to whether the reply was PONG, clears it when the attempt
raises, and returns the updated flag.  First component is the new flag,
second the returned boolean. -/
def ping (isConnected : Bool) : PingOutcome → Bool × Bool
  | PingOutcome.pong => (true, true)
  | PingOutcome.otherReply => (false, false)
  | PingOutcome.raised => (false, false)

/-- RedisService.isHealthy (lines 156-158): reads the flag. -/
def isHealthy (isConnected : Bool) : Bool := isConnected

/-- C4: a ready event or a successful probe makes isHealthy() read true, a
close or end event makes it read false, error events leave it unchanged, and
the event sequence ready, close, probe-success drives isHealthy() through
true, false, true with nothing between the close and the successful probe
able to turn it true (non-ready events and failed probes keep it false). -/
theorem health_state_machine (b : Bool) :
    applyEvent b HealthEvent.readyEv = true ∧
    applyEvent b HealthEvent.closeEv = false ∧
    applyEvent b HealthEvent.endEv = false ∧
    applyEvent b HealthEvent.errorEv = b ∧
    (ping b PingOutcome.pong).1 = true ∧
    (ping b PingOutcome.pong).2 = true ∧
    isHealthy (applyEvent b HealthEvent.readyEv) = true ∧
    isHealthy (applyEvent (applyEvent b HealthEvent.readyEv)
      HealthEvent.closeEv) = false ∧
    isHealthy ((ping (applyEvent (applyEvent b HealthEvent.readyEv)
      HealthEvent.closeEv) PingOutcome.pong).1) = true ∧
    applyEvent false HealthEvent.errorEv = false ∧
    applyEvent false HealthEvent.connectEv = false ∧
    applyEvent false HealthEvent.reconnectingEv = false ∧
    (ping false PingOutcome.otherReply).1 = false ∧
    (ping false PingOutcome.raised).1 = false := by
  cases b <;> decide

deriving instance DecidableEq for Except

/-- Value stored under a redis key: a plain string (SET/SETEX) or a set of
members (SADD).  Redis keeps both in one keyspace and answers WRONGTYPE when
a command of the other kind hits a key. -/
inductive RVal
  | str (v : String)
  | sset (members : List String)
deriving DecidableEq, Repr

/-- Association-list keyspace plus a tick counting issued raw commands; the
tick drives fault injection (the n-th raw command can be made to raise). -/
structure RedisState where
  store : List (String × RVal)
  tick : ℕ
deriving DecidableEq, Repr

def kvGet : List (String × RVal) → String → Option RVal
  | [], _ => none
  | (k, v) :: rest, key => if k = key then some v else kvGet rest key

def kvSet : List (String × RVal) → String → RVal → List (String × RVal)
  | [], key, v => [(key, v)]
  | (k, w) :: rest, key, v =>
      if k = key then (k, v) :: rest else (k, w) :: kvSet rest key v

def kvDel : List (String × RVal) → String → List (String × RVal)
  | [], _ => []
  | (k, w) :: rest, key =>
      if k = key then kvDel rest key else (k, w) :: kvDel rest key

/-- One store operation: state in, possibly-raising result and state out.
The state is returned even on a raise so that partially applied effects
survive, matching a thrown await in the middle of a method. -/
def RedisOp (α : Type) : Type := RedisState → Except Unit α × RedisState

def opPure {α : Type} (a : α) : RedisOp α := fun s => (Except.ok a, s)

def opBind {α β : Type} (m : RedisOp α) (k : α → RedisOp β) : RedisOp β :=
  fun s =>
    match m s with
    | (Except.ok a, s1) => k a s1
    | (Except.error e, s1) => (Except.error e, s1)

/-- try/catch: the handler runs from the state at the raise point. -/
def opCatch {α : Type} (m : RedisOp α) (handler : Unit → RedisOp α) :
    RedisOp α :=
  fun s =>
    match m s with
    | (Except.ok a, s1) => (Except.ok a, s1)
    | (Except.error _, s1) => handler () s1

/-- Every raw client command passes here: it raises exactly when the
injected failure index equals the current tick, and the tick advances either
way (a transient fault hits one command). -/
def consume (failAt : Option ℕ) : RedisOp Unit := fun s =>
  if failAt = some s.tick then
    (Except.error (), { s with tick := s.tick + 1 })
  else
    (Except.ok (), { s with tick := s.tick + 1 })

/-- Raw GET: string value or null; WRONGTYPE on a set key rejects. -/
def rGet (failAt : Option ℕ) (k : String) : RedisOp (Option String) :=
  opBind (consume failAt) fun _ => fun s =>
    match kvGet s.store k with
    | some (RVal.str v) => (Except.ok (some v), s)
    | some (RVal.sset _) => (Except.error (), s)
    | none => (Except.ok none, s)

/-- Raw SET/SETEX: overwrites whatever was there (expiry is not modelled,
so both collapse to the same write). -/
def rSetStr (failAt : Option ℕ) (k v : String) : RedisOp Unit :=
  opBind (consume failAt) fun _ => fun s =>
    (Except.ok (), { s with store := kvSet s.store k (RVal.str v) })

/-- Raw DEL of one key, returning how many keys were removed. -/
def rDel (failAt : Option ℕ) (k : String) : RedisOp ℕ :=
  opBind (consume failAt) fun _ => fun s =>
    match kvGet s.store k with
    | some _ => (Except.ok 1, { s with store := kvDel s.store k })
    | none => (Except.ok 0, s)

/-- Raw variadic DEL (one round trip for many keys). -/
def rDelMany (failAt : Option ℕ) (ks : List String) : RedisOp ℕ :=
  opBind (consume failAt) fun _ => fun s =>
    (Except.ok (ks.filter (fun k => (kvGet s.store k).isSome)).length,
     { s with store := ks.foldl kvDel s.store })

/-- Raw EXISTS. -/
def rExists (failAt : Option ℕ) (k : String) : RedisOp Bool :=
  opBind (consume failAt) fun _ => fun s =>
    (Except.ok (kvGet s.store k).isSome, s)

/-- Raw EXPIRE: 1 when the key exists; expiry itself is not modelled. -/
def rExpire (failAt : Option ℕ) (k : String) (secs : ℕ) : RedisOp Bool :=
  opBind (consume failAt) fun _ => fun s =>
    (Except.ok (kvGet s.store k).isSome, s)

/-- Raw SMEMBERS: empty for a missing key, WRONGTYPE on a string key. -/
def rSmembers (failAt : Option ℕ) (k : String) : RedisOp (List String) :=
  opBind (consume failAt) fun _ => fun s =>
    match kvGet s.store k with
    | some (RVal.sset ms) => (Except.ok ms, s)
    | some (RVal.str _) => (Except.error (), s)
    | none => (Except.ok [], s)

/-- Raw SADD of one member. -/
def rSadd (failAt : Option ℕ) (k m : String) : RedisOp ℕ :=
  opBind (consume failAt) fun _ => fun s =>
    match kvGet s.store k with
    | some (RVal.sset ms) =>
        if m ∈ ms then (Except.ok 0, s)
        else (Except.ok 1, { s with store := kvSet s.store k (RVal.sset (ms ++ [m])) })
    | some (RVal.str _) => (Except.error (), s)
    | none => (Except.ok 1, { s with store := kvSet s.store k (RVal.sset [m]) })

/-- Raw SREM of one member; removing the last member removes the key. -/
def rSrem (failAt : Option ℕ) (k m : String) : RedisOp ℕ :=
  opBind (consume failAt) fun _ => fun s =>
    match kvGet s.store k with
    | some (RVal.sset ms) =>
        if m ∈ ms then
          (Except.ok 1,
           { s with store :=
              match ms.erase m with
              | [] => kvDel s.store k
              | ms1 => kvSet s.store k (RVal.sset ms1) })
        else (Except.ok 0, s)
    | some (RVal.str _) => (Except.error (), s)
    | none => (Except.ok 0, s)

/-- Raw KEYS with a trailing-star pattern, modelled as a prefix filter. -/
def rKeys (failAt : Option ℕ) (pre : String) : RedisOp (List String) :=
  opBind (consume failAt) fun _ => fun s =>
    (Except.ok ((s.store.map Prod.fst).filter (fun k => pre.isPrefixOf k)), s)

/-- Raw SET key value EX ttl NX: create-if-absent. -/
def rSetNX (failAt : Option ℕ) (k v : String) (ttl : ℕ) : RedisOp Bool :=
  opBind (consume failAt) fun _ => fun s =>
    match kvGet s.store k with
    | some _ => (Except.ok false, s)
    | none => (Except.ok true, { s with store := kvSet s.store k (RVal.str v) })

/-- RedisService.get wrapper (redis.service.ts lines 68-76): null when the
connection flag is down, and any raise is swallowed into null. -/
def wGet (healthy : Bool) (failAt : Option ℕ) (k : String) :
    RedisOp (Option String) :=
  if healthy then opCatch (rGet failAt k) (fun _ => opPure none)
  else opPure none

/-- RedisService.set wrapper (lines 78-91): false when down, write then
true, raises swallowed into false. -/
def wSet (healthy : Bool) (failAt : Option ℕ) (k v : String) (ttl : ℕ) :
    RedisOp Bool :=
  if healthy then
    opCatch (opBind (rSetStr failAt k v) (fun _ => opPure true))
      (fun _ => opPure false)
  else opPure false

/-- RedisService.del wrapper (lines 93-102). -/
def wDel (healthy : Bool) (failAt : Option ℕ) (k : String) : RedisOp Bool :=
  if healthy then
    opCatch (opBind (rDel failAt k) (fun _ => opPure true))
      (fun _ => opPure false)
  else opPure false

/-- RedisService.exists wrapper (lines 104-113). -/
def wExists (healthy : Bool) (failAt : Option ℕ) (k : String) : RedisOp Bool :=
  if healthy then opCatch (rExists failAt k) (fun _ => opPure false)
  else opPure false

/-- RedisService.expire wrapper (lines 125-134). -/
def wExpire (healthy : Bool) (failAt : Option ℕ) (k : String) (secs : ℕ) :
    RedisOp Bool :=
  if healthy then opCatch (rExpire failAt k secs) (fun _ => opPure false)
  else opPure false

/-- Options bag of cache.service.ts (interface CacheOptions). -/
structure CacheOptions where
  ttl : Option ℕ
  tags : List String
  ns : Option String
deriving DecidableEq, Repr

/-- REDIS_TTL default used by CacheService. -/
def defaultTtl : ℕ := 3600

/-- CacheService.buildKey (cache.service.ts lines 290-293). -/
def buildKey (key : String) (ns : Option String) : String :=
  match ns with
  | some n => "cache:" ++ n ++ ":" ++ key
  | none => "cache:" ++ key

/-- Key of a tag set (cache.service.ts, cache:tag: prefix). -/
def tagKey (tag : String) : String := "cache:tag:" ++ tag

/-- `options?.ttl || this.defaultTtl`: JS-falsy 0 also takes the default. -/
def ttlOf (opts : CacheOptions) : ℕ :=
  match opts.ttl with
  | some t => if t = 0 then defaultTtl else t
  | none => defaultTtl

/-- CacheService.get (lines 28-54).  Note the source builds the key with no
namespace argument here.  JSON round-tripping is modelled as the identity on
the stored string, so the surrounding try/catch (which can only fire on a
parse error: the wrapper already swallows store errors) never fires. -/
def cache_get (healthy : Bool) (failAt : Option ℕ) (key : String) :
    RedisOp (Option String) :=
  if healthy then
    opCatch (wGet healthy failAt (buildKey key none)) (fun _ => opPure none)
  else opPure none

/-- Loop body of storeCacheTags: raw SADD through getClient() (can raise)
followed by the expire wrapper (cannot). -/
def storeCacheTagsLoop (healthy : Bool) (failAt : Option ℕ)
    (cacheKey : String) : List String → RedisOp Unit
  | [] => opPure ()
  | tag :: rest =>
      opBind (rSadd failAt (tagKey tag) cacheKey) fun _ =>
        opBind (wExpire healthy failAt (tagKey tag) defaultTtl) fun _ =>
          storeCacheTagsLoop healthy failAt cacheKey rest

/-- CacheService.storeCacheTags (lines 295-308): its own try/catch swallows
any raise, so a tag-bookkeeping failure never escapes. -/
def storeCacheTags (healthy : Bool) (failAt : Option ℕ) (cacheKey : String)
    (tags : List String) : RedisOp Unit :=
  opCatch (storeCacheTagsLoop healthy failAt cacheKey tags)
    (fun _ => opPure ())

/-- CacheService.set (lines 59-88): namespaced key, write through the
wrapper, then tag bookkeeping when tags were supplied; returns the wrapper
verdict. -/
def cache_set (healthy : Bool) (failAt : Option ℕ) (key value : String)
    (opts : CacheOptions) : RedisOp Bool :=
  if healthy then
    opCatch
      (opBind (wSet healthy failAt (buildKey key opts.ns) value (ttlOf opts))
        fun success =>
          opBind
            (if opts.tags.isEmpty then opPure ()
             else storeCacheTags healthy failAt (buildKey key opts.ns) opts.tags)
            fun _ => opPure success)
      (fun _ => opPure false)
  else opPure false

/-- Loop body of deleteCacheTags: raw SREM on each discovered tag key. -/
def deleteCacheTagsLoop (failAt : Option ℕ) (cacheKey : String) :
    List String → RedisOp Unit
  | [] => opPure ()
  | tk :: rest =>
      opBind (rSrem failAt tk cacheKey) fun _ =>
        deleteCacheTagsLoop failAt cacheKey rest

/-- CacheService.deleteCacheTags (lines 310-322): raw KEYS scan over the tag
namespace, SREM everywhere, any raise swallowed. -/
def deleteCacheTags (failAt : Option ℕ) (cacheKey : String) : RedisOp Unit :=
  opCatch
    (opBind (rKeys failAt "cache:tag:") fun tagKeys =>
      deleteCacheTagsLoop failAt cacheKey tagKeys)
    (fun _ => opPure ())

/-- CacheService.delete (lines 93-110): del through the wrapper (which
swallows its own errors and whose verdict is ignored), tag cleanup, then
true. -/
def cache_delete (healthy : Bool) (failAt : Option ℕ) (key : String)
    (ns : Option String) : RedisOp Bool :=
  if healthy then
    opCatch
      (opBind (wDel healthy failAt (buildKey key ns)) fun _ =>
        opBind (deleteCacheTags failAt (buildKey key ns)) fun _ =>
          opPure true)
      (fun _ => opPure false)
  else opPure false

/-- Inner loop of invalidateByTags: delete every member key through the
wrapper, counting each iteration. -/
def delKeysLoop (healthy : Bool) (failAt : Option ℕ) :
    List String → ℕ → RedisOp ℕ
  | [], acc => opPure acc
  | k :: rest, acc =>
      opBind (wDel healthy failAt k) fun _ =>
        delKeysLoop healthy failAt rest (acc + 1)

/-- Outer loop of invalidateByTags.  The only call in the source loop body
that can raise is the raw SMEMBERS (redisService.del swallows its own
errors), so the source's single try/catch around the whole loop is the same
as catching at each SMEMBERS and returning the count reached so far. -/
def invalidateTagsLoop (healthy : Bool) (failAt : Option ℕ) :
    List String → ℕ → RedisOp ℕ
  | [], acc => opPure acc
  | tag :: rest, acc =>
      opCatch
        (opBind (rSmembers failAt (tagKey tag)) fun ks =>
          opBind (delKeysLoop healthy failAt ks acc) fun acc1 =>
            opBind (wDel healthy failAt (tagKey tag)) fun _ =>
              invalidateTagsLoop healthy failAt rest acc1)
        (fun _ => opPure acc)

/-- CacheService.invalidateByTags (lines 115-139). -/
def invalidateByTags (healthy : Bool) (failAt : Option ℕ)
    (tags : List String) : RedisOp ℕ :=
  if healthy then invalidateTagsLoop healthy failAt tags 0
  else opPure 0

/-- CacheService.clear (lines 144-163): raw KEYS on the namespace pattern,
one variadic DEL when anything matched. -/
def cache_clear (healthy : Bool) (failAt : Option ℕ) (ns : Option String) :
    RedisOp Bool :=
  if healthy then
    opCatch
      (opBind (rKeys failAt
          (match ns with
           | some n => "cache:" ++ n ++ ":"
           | none => "cache:")) fun ks =>
        opBind (if ks.isEmpty then opPure 0 else rDelMany failAt ks) fun _ =>
          opPure true)
      (fun _ => opPure false)
  else opPure false

/-- CacheService.acquireLock (lines 259-273): SET NX EX through the raw
client, any raise swallowed into false. -/
def acquireLock (healthy : Bool) (failAt : Option ℕ) (lockKey : String)
    (ttl : ℕ) : RedisOp Bool :=
  if healthy then opCatch (rSetNX failAt lockKey "1" ttl) (fun _ => opPure false)
  else opPure false

/-- CacheService.releaseLock (lines 278-288): del through the wrapper. -/
def releaseLock (healthy : Bool) (failAt : Option ℕ) (lockKey : String) :
    RedisOp Unit :=
  if healthy then
    opCatch (opBind (wDel healthy failAt lockKey) fun _ => opPure ())
      (fun _ => opPure ())
  else opPure ()

/-- Observable steps of getOrSet, in execution order: each constructor marks
the corresponding call site in the source (readCache = this.get, lockAcquire
= this.acquireLock, loaderCall = factory(), cacheWrite = this.set,
lockRelease = this.releaseLock, lockCheck = this.redisService.exists). -/
inductive CacheAction
  | readCache
  | lockAcquire
  | loaderCall
  | cacheWrite
  | lockRelease
  | lockCheck
deriving DecidableEq, Repr

/-- Result of one getOrSet call: the returned-or-thrown value, the final
store, how many times the factory ran, and the ordered action trace. -/
structure GOSResult where
  ret : Except Unit String
  state : RedisState
  loaderCalls : ℕ
  trace : List CacheAction
deriving Repr

/-- maxWaitTime / checkInterval = 5000 / 100 poll iterations. -/
def maxRetries : ℕ := 50

/-- Outcome of the poll-wait loop: a cached value appeared, or control falls
through to a direct factory call. -/
inductive WaitOutcome
  | found (v : String)
  | fallThrough
deriving DecidableEq, Repr

/-- Poll-wait of getOrSet (cache.service.ts lines 224-243): sleep (no store
effect), re-read the cache, and when the lock has disappeared do one final
read before breaking out to the factory.  Note the re-reads go through
this.get, i.e. the un-namespaced key. -/
def gosWaitLoop (healthy : Bool) (failAt : Option ℕ) (key lockKey : String) :
    ℕ → RedisState → List CacheAction →
    WaitOutcome × RedisState × List CacheAction
  | 0, s, tr => (WaitOutcome.fallThrough, s, tr)
  | fuel + 1, s, tr =>
      match cache_get healthy failAt key s with
      | (Except.ok (some v), s1) =>
          (WaitOutcome.found v, s1, tr ++ [CacheAction.readCache])
      | (_, s1) =>
          match wExists healthy failAt lockKey s1 with
          | (Except.ok true, s2) =>
              gosWaitLoop healthy failAt key lockKey fuel s2
                (tr ++ [CacheAction.readCache, CacheAction.lockCheck])
          | (_, s2) =>
              match cache_get healthy failAt key s2 with
              | (Except.ok (some v), s3) =>
                  (WaitOutcome.found v, s3,
                   tr ++ [CacheAction.readCache, CacheAction.lockCheck,
                     CacheAction.readCache])
              | (_, s3) =>
                  (WaitOutcome.fallThrough, s3,
                   tr ++ [CacheAction.readCache, CacheAction.lockCheck,
                     CacheAction.readCache])

/-- CacheService.getOrSet (lines 170-254), the stampede guard.  The loader
argument is the factory together with its outcome; a loaderCall action marks
each invocation.  The initial read and the double-check call this.get, which
builds its key without the namespace; the lock key and the write-back use
the namespaced key, exactly as in the source. -/
def getOrSet (healthy : Bool) (failAt : Option ℕ) (key : String)
    (loader : Except Unit String) (opts : CacheOptions) (s : RedisState) :
    GOSResult :=
  match cache_get healthy failAt key s with
  | (Except.ok (some v), s1) =>
      ⟨Except.ok v, s1, 0, [CacheAction.readCache]⟩
  | (_, s1) =>
      if healthy then
        match acquireLock healthy failAt (buildKey key opts.ns ++ ":lock") 30 s1 with
        | (Except.ok true, s2) =>
            (match cache_get healthy failAt key s2 with
             | (Except.ok (some v), s3) =>
                 match releaseLock healthy failAt
                     (buildKey key opts.ns ++ ":lock") s3 with
                 | (_, s4) =>
                     ⟨Except.ok v, s4, 0,
                      [CacheAction.readCache, CacheAction.lockAcquire,
                       CacheAction.readCache, CacheAction.lockRelease]⟩
             | (_, s3) =>
                 match loader with
                 | Except.error e =>
                     match releaseLock healthy failAt
                         (buildKey key opts.ns ++ ":lock") s3 with
                     | (_, s4) =>
                         ⟨Except.error e, s4, 1,
                          [CacheAction.readCache, CacheAction.lockAcquire,
                           CacheAction.readCache, CacheAction.loaderCall,
                           CacheAction.lockRelease]⟩
                 | Except.ok v =>
                     match cache_set healthy failAt key v opts s3 with
                     | (_, s4) =>
                         match releaseLock healthy failAt
                             (buildKey key opts.ns ++ ":lock") s4 with
                         | (_, s5) =>
                             ⟨Except.ok v, s5, 1,
                              [CacheAction.readCache, CacheAction.lockAcquire,
                               CacheAction.readCache, CacheAction.loaderCall,
                               CacheAction.cacheWrite,
                               CacheAction.lockRelease]⟩)
        | (_, s2) =>
            match gosWaitLoop healthy failAt key
                (buildKey key opts.ns ++ ":lock") maxRetries s2
                [CacheAction.readCache, CacheAction.lockAcquire] with
            | (WaitOutcome.found v, s3, tr) => ⟨Except.ok v, s3, 0, tr⟩
            | (WaitOutcome.fallThrough, s3, tr) =>
                match loader with
                | Except.error e =>
                    ⟨Except.error e, s3, 1, tr ++ [CacheAction.loaderCall]⟩
                | Except.ok v =>
                    match cache_set healthy failAt key v opts s3 with
                    | (_, s4) =>
                        ⟨Except.ok v, s4, 1,
                         tr ++ [CacheAction.loaderCall, CacheAction.cacheWrite]⟩
      else
        match loader with
        | Except.error e =>
            ⟨Except.error e, s1, 1,
             [CacheAction.readCache, CacheAction.loaderCall]⟩
        | Except.ok v =>
            match cache_set healthy failAt key v opts s1 with
            | (_, s2) =>
                ⟨Except.ok v, s2, 1,
                 [CacheAction.readCache, CacheAction.loaderCall,
                  CacheAction.cacheWrite]⟩

lemma kvGet_kvSet_self (l : List (String × RVal)) (k : String) (v : RVal) :
    kvGet (kvSet l k v) k = some v := by
  induction l with
  | nil => simp [kvSet, kvGet]
  | cons p rest ih =>
    by_cases h : p.1 = k
    · simp [kvSet, kvGet, h]
    · simp only [kvSet]
      rw [if_neg h]
      simp only [kvGet]
      rw [if_neg h]
      exact ih

lemma kvGet_kvSet_ne (l : List (String × RVal)) (k k' : String) (v : RVal)
    (h : k' ≠ k) : kvGet (kvSet l k v) k' = kvGet l k' := by
  induction l with
  | nil =>
    simp only [kvSet, kvGet]
    rw [if_neg (by exact fun hh => h hh.symm)]
  | cons p rest ih =>
    by_cases hp : p.1 = k
    · simp only [kvSet]
      rw [if_pos hp]
      simp only [kvGet]
      rw [if_neg (by rw [hp]; exact fun hh => h hh.symm),
        if_neg (by rw [hp]; exact fun hh => h hh.symm)]
    · simp only [kvSet]
      rw [if_neg hp]
      simp only [kvGet]
      by_cases hq : p.1 = k'
      · rw [if_pos hq, if_pos hq]
      · rw [if_neg hq, if_neg hq]
        exact ih

lemma kvGet_kvDel_self (l : List (String × RVal)) (k : String) :
    kvGet (kvDel l k) k = none := by
  induction l with
  | nil => simp [kvDel, kvGet]
  | cons p rest ih =>
    by_cases h : p.1 = k
    · simp only [kvDel]
      rw [if_pos h]
      exact ih
    · simp only [kvDel]
      rw [if_neg h]
      simp only [kvGet]
      rw [if_neg h]
      exact ih

lemma kvGet_kvDel_ne (l : List (String × RVal)) (k k' : String)
    (h : k' ≠ k) : kvGet (kvDel l k) k' = kvGet l k' := by
  induction l with
  | nil => simp [kvDel]
  | cons p rest ih =>
    by_cases hp : p.1 = k
    · simp only [kvDel]
      rw [if_pos hp]
      simp only [kvGet]
      rw [if_neg (by rw [hp]; exact fun hh => h hh.symm)]
      exact ih
    · simp only [kvDel]
      rw [if_neg hp]
      simp only [kvGet]
      by_cases hq : p.1 = k'
      · rw [if_pos hq, if_pos hq]
      · rw [if_neg hq, if_neg hq]
        exact ih

lemma kvDel_absent (l : List (String × RVal)) (k : String)
    (h : kvGet l k = none) : kvDel l k = l := by
  induction l with
  | nil => simp [kvDel]
  | cons p rest ih =>
    simp only [kvGet] at h
    by_cases hp : p.1 = k
    · rw [if_pos hp] at h
      exact absurd h (by simp)
    · rw [if_neg hp] at h
      simp only [kvDel]
      rw [if_neg hp, ih h]

lemma kvGet_kvDel_none (l : List (String × RVal)) (k k' : String)
    (h : kvGet l k' = none) : kvGet (kvDel l k) k' = none := by
  by_cases hk : k' = k
  · subst hk
    exact kvGet_kvDel_self l k'
  · rw [kvGet_kvDel_ne l k k' hk]
    exact h

lemma foldl_kvDel_none (ks : List String) :
    ∀ (l : List (String × RVal)) (k : String), kvGet l k = none →
      kvGet (ks.foldl kvDel l) k = none := by
  induction ks with
  | nil => intro l k h; simpa using h
  | cons m rest ih =>
    intro l k h
    simp only [List.foldl_cons]
    exact ih (kvDel l m) k (kvGet_kvDel_none l m k h)

lemma foldl_kvDel_mem (ks : List String) :
    ∀ (l : List (String × RVal)) (k : String), k ∈ ks →
      kvGet (ks.foldl kvDel l) k = none := by
  induction ks with
  | nil => intro l k h; cases h
  | cons m rest ih =>
    intro l k h
    simp only [List.foldl_cons]
    rcases List.mem_cons.mp h with h1 | h1
    · subst h1
      exact foldl_kvDel_none rest (kvDel l k) k (kvGet_kvDel_self l k)
    · exact ih (kvDel l m) k h1

lemma foldl_kvDel_ne (ks : List String) :
    ∀ (l : List (String × RVal)) (k : String), (∀ m ∈ ks, k ≠ m) →
      kvGet (ks.foldl kvDel l) k = kvGet l k := by
  induction ks with
  | nil => intro l k _; rfl
  | cons m rest ih =>
    intro l k h
    simp only [List.foldl_cons]
    rw [ih (kvDel l m) k (fun x hx => h x (List.mem_cons_of_mem m hx)),
      kvGet_kvDel_ne l m k (h m (List.mem_cons_self m rest))]

lemma consume_none (s : RedisState) :
    consume none s = (Except.ok (), { s with tick := s.tick + 1 }) := rfl

/-- String value a JS caller sees for a raw lookup result. -/
def strVal : Option RVal → Option String
  | some (RVal.str v) => some v
  | some (RVal.sset _) => none
  | none => none

lemma cache_get_eval (key : String) (s : RedisState) :
    cache_get true none key s =
      (Except.ok (strVal (kvGet s.store (buildKey key none))),
       { s with tick := s.tick + 1 }) := by
  rcases hk : kvGet s.store (buildKey key none) with _ | v
  · simp [cache_get, wGet, rGet, opCatch, opBind, opPure, consume, hk, strVal]
  · rcases v with w | ms
    · simp [cache_get, wGet, rGet, opCatch, opBind, opPure, consume, hk, strVal]
    · simp [cache_get, wGet, rGet, opCatch, opBind, opPure, consume, hk, strVal]

lemma acquireLock_absent (k : String) (ttl : ℕ) (s : RedisState)
    (h : kvGet s.store k = none) :
    acquireLock true none k ttl s =
      (Except.ok true,
       ⟨kvSet s.store k (RVal.str "1"), s.tick + 1⟩) := by
  simp [acquireLock, rSetNX, opCatch, opBind, opPure, consume, h]

lemma wDel_eval (k : String) (s : RedisState) :
    wDel true none k s =
      (Except.ok true, ⟨kvDel s.store k, s.tick + 1⟩) := by
  rcases hk : kvGet s.store k with _ | v
  · simp [wDel, rDel, opCatch, opBind, opPure, consume, hk, kvDel_absent s.store k hk]
  · simp [wDel, rDel, opCatch, opBind, opPure, consume, hk]

lemma releaseLock_eval (k : String) (s : RedisState) :
    releaseLock true none k s =
      (Except.ok (), ⟨kvDel s.store k, s.tick + 1⟩) := by
  simp [releaseLock, opCatch, opBind, opPure, wDel_eval]

lemma storeCacheTagsLoop_pres (ck : String) (v : String) :
    ∀ (tags : List String) (s : RedisState),
      kvGet s.store ck = some (RVal.str v) →
      kvGet ((storeCacheTagsLoop true none ck tags s).2).store ck =
        some (RVal.str v) := by
  intro tags
  induction tags with
  | nil => intro s h; simpa [storeCacheTagsLoop, opPure] using h
  | cons tag rest ih =>
    intro s h
    rcases hk : kvGet s.store (tagKey tag) with _ | w
    · have hne : ck ≠ tagKey tag := by
        intro hh
        rw [hh, hk] at h
        cases h
      have hkv : kvGet (kvSet s.store (tagKey tag) (RVal.sset [ck])) ck =
          some (RVal.str v) := by
        rw [kvGet_kvSet_ne _ _ _ _ hne]
        exact h
      simp only [storeCacheTagsLoop, rSadd, wExpire, rExpire, opBind,
        opCatch, opPure, consume_none]
      simp only [hk]
      exact ih _ hkv
    · rcases w with w | ms
      · simp only [storeCacheTagsLoop, rSadd, opBind, consume_none]
        simp only [hk]
        exact h
      · have hne : ck ≠ tagKey tag := by
          intro hh
          rw [hh, hk] at h
          cases h
        by_cases hmem : ck ∈ ms
        · simp only [storeCacheTagsLoop, rSadd, wExpire, rExpire, opBind,
            opCatch, opPure, consume_none]
          simp only [hk, if_pos hmem]
          exact ih _ h
        · have hkv : kvGet (kvSet s.store (tagKey tag)
              (RVal.sset (ms ++ [ck]))) ck = some (RVal.str v) := by
            rw [kvGet_kvSet_ne _ _ _ _ hne]
            exact h
          simp only [storeCacheTagsLoop, rSadd, wExpire, rExpire, opBind,
            opCatch, opPure, consume_none]
          simp only [hk, if_neg hmem]
          exact ih _ hkv

lemma cache_set_ok (key value : String) (opts : CacheOptions)
    (s : RedisState) :
    ∃ (b : Bool) (s2 : RedisState),
      cache_set true none key value opts s = (Except.ok b, s2) ∧
      kvGet s2.store (buildKey key opts.ns) = some (RVal.str value) := by
  have hw : kvGet (kvSet s.store (buildKey key opts.ns) (RVal.str value))
      (buildKey key opts.ns) = some (RVal.str value) :=
    kvGet_kvSet_self _ _ _
  by_cases htags : opts.tags.isEmpty
  · refine ⟨true,
      ⟨kvSet s.store (buildKey key opts.ns) (RVal.str value), s.tick + 1⟩,
      ?_, hw⟩
    simp [cache_set, wSet, rSetStr, opCatch, opBind, opPure, consume_none,
      htags]
  · set s1 : RedisState :=
      ⟨kvSet s.store (buildKey key opts.ns) (RVal.str value), s.tick + 1⟩
      with hs1
    have hpres := storeCacheTagsLoop_pres (buildKey key opts.ns) value
      opts.tags s1 hw
    rcases hloop : storeCacheTagsLoop true none (buildKey key opts.ns)
        opts.tags s1 with ⟨r, s2⟩
    rw [hloop] at hpres
    rcases r with e | u
    · refine ⟨true, s2, ?_, hpres⟩
      simp [cache_set, wSet, rSetStr, storeCacheTags, opCatch, opBind,
        opPure, consume_none, htags, hloop, hs1]
    · refine ⟨true, s2, ?_, hpres⟩
      simp [cache_set, wSet, rSetStr, storeCacheTags, opCatch, opBind,
        opPure, consume_none, htags, hloop, hs1]

lemma buildKey_length (key : String) (ns : Option String) :
    (buildKey key none).length + 5 ≤ (buildKey key ns ++ ":lock").length := by
  have e1 : ("cache:" : String).length = 6 := rfl
  have e2 : (":" : String).length = 1 := rfl
  have e3 : (":lock" : String).length = 5 := rfl
  rcases ns with _ | n
  · simp only [buildKey, String.length_append, e1, e3]
    omega
  · simp only [buildKey, String.length_append, e1, e2, e3]
    omega

lemma buildKey_ne_lockKey (key : String) (ns2 : Option String) :
    buildKey key ns2 ++ ":lock" ≠ buildKey key none := by
  intro h
  have hlen := congrArg String.length h
  have h5 := buildKey_length key ns2
  omega

lemma cacheKey_ne_lockKey (key : String) (ns : Option String) :
    buildKey key ns ++ ":lock" ≠ buildKey key ns := by
  intro h
  have hlen := congrArg String.length h
  rw [String.length_append] at hlen
  have h5 : (":lock" : String).length = 5 := rfl
  omega

/-- C7: with the stampede lock acquired and the double-check missing, a
failing loader propagates its error only after the lock has been released,
and the cached entry for the composed key is untouched (no cacheWrite action
occurs); a succeeding loader writes the value to the cache strictly before
the lock is released, as the ordered action trace shows. -/
theorem getOrSet_lock_release (key : String) (opts : CacheOptions)
    (value : String) (st : RedisState)
    (hmiss : kvGet st.store (buildKey key none) = none)
    (hlock : kvGet st.store (buildKey key opts.ns ++ ":lock") = none) :
    ((getOrSet true none key (Except.error ()) opts st).ret =
        Except.error () ∧
     kvGet (getOrSet true none key (Except.error ()) opts st).state.store
        (buildKey key opts.ns ++ ":lock") = none ∧
     kvGet (getOrSet true none key (Except.error ()) opts st).state.store
        (buildKey key opts.ns) = kvGet st.store (buildKey key opts.ns) ∧
     (getOrSet true none key (Except.error ()) opts st).trace =
       [CacheAction.readCache, CacheAction.lockAcquire,
        CacheAction.readCache, CacheAction.loaderCall,
        CacheAction.lockRelease]) ∧
    ((getOrSet true none key (Except.ok value) opts st).ret =
        Except.ok value ∧
     kvGet (getOrSet true none key (Except.ok value) opts st).state.store
        (buildKey key opts.ns) = some (RVal.str value) ∧
     kvGet (getOrSet true none key (Except.ok value) opts st).state.store
        (buildKey key opts.ns ++ ":lock") = none ∧
     (getOrSet true none key (Except.ok value) opts st).trace =
       [CacheAction.readCache, CacheAction.lockAcquire,
        CacheAction.readCache, CacheAction.loaderCall,
        CacheAction.cacheWrite, CacheAction.lockRelease]) := by
  have hread1 : cache_get true none key st =
      (Except.ok none, { st with tick := st.tick + 1 }) := by
    rw [cache_get_eval, hmiss]
    rfl
  have hacq : acquireLock true none (buildKey key opts.ns ++ ":lock") 30
      { st with tick := st.tick + 1 } =
      (Except.ok true,
       ⟨kvSet st.store (buildKey key opts.ns ++ ":lock") (RVal.str "1"),
        st.tick + 2⟩) :=
    acquireLock_absent _ 30 _ hlock
  have hmiss2 : kvGet (kvSet st.store
      (buildKey key opts.ns ++ ":lock") (RVal.str "1"))
      (buildKey key none) = none := by
    rw [kvGet_kvSet_ne _ _ _ _ (Ne.symm (buildKey_ne_lockKey key opts.ns))]
    exact hmiss
  have hread2 : cache_get true none key
      (⟨kvSet st.store (buildKey key opts.ns ++ ":lock") (RVal.str "1"),
        st.tick + 2⟩ : RedisState) =
      (Except.ok none,
       ⟨kvSet st.store (buildKey key opts.ns ++ ":lock") (RVal.str "1"),
        st.tick + 2 + 1⟩) := by
    rw [cache_get_eval]
    rw [show kvGet (kvSet st.store
      (buildKey key opts.ns ++ ":lock") (RVal.str "1"))
      (buildKey key none) = none from hmiss2]
    rfl
  have hckne : buildKey key opts.ns ≠ buildKey key opts.ns ++ ":lock" :=
    Ne.symm (cacheKey_ne_lockKey key opts.ns)
  constructor
  · have hrel : releaseLock true none (buildKey key opts.ns ++ ":lock")
        (⟨kvSet st.store (buildKey key opts.ns ++ ":lock") (RVal.str "1"),
          st.tick + 2 + 1⟩ : RedisState) =
        (Except.ok (),
         ⟨kvDel (kvSet st.store (buildKey key opts.ns ++ ":lock")
            (RVal.str "1")) (buildKey key opts.ns ++ ":lock"),
          st.tick + 2 + 1 + 1⟩) := releaseLock_eval _ _
    simp only [getOrSet, hread1, hacq, hread2, hrel, if_true]
    refine ⟨by trivial, ?_, ?_, by trivial⟩
    · exact kvGet_kvDel_self _ _
    · rw [kvGet_kvDel_ne _ _ _ hckne,
        kvGet_kvSet_ne _ _ _ _ hckne]
  · obtain ⟨b, s4, hset, hkv⟩ := cache_set_ok key value opts
      (⟨kvSet st.store (buildKey key opts.ns ++ ":lock") (RVal.str "1"),
        st.tick + 2 + 1⟩ : RedisState)
    have hrel : releaseLock true none (buildKey key opts.ns ++ ":lock") s4 =
        (Except.ok (),
         ⟨kvDel s4.store (buildKey key opts.ns ++ ":lock"),
          s4.tick + 1⟩) := releaseLock_eval _ _
    simp only [getOrSet, hread1, hacq, hread2, hset, hrel, if_true]
    refine ⟨by trivial, ?_, ?_, by trivial⟩
    · rw [kvGet_kvDel_ne _ _ _ hckne]
      exact hkv
    · exact kvGet_kvDel_self _ _

/-- Witness for C7 at key "k", empty options, empty store. -/
theorem getOrSet_lock_release_witness :
    (kvGet (⟨[], 0⟩ : RedisState).store (buildKey "k" none) = none ∧
     kvGet (⟨[], 0⟩ : RedisState).store
       (buildKey "k" none ++ ":lock") = none) ∧
    (((getOrSet true none "k" (Except.error ())
        ⟨none, [], none⟩ ⟨[], 0⟩).ret = Except.error () ∧
      kvGet (getOrSet true none "k" (Except.error ())
        ⟨none, [], none⟩ ⟨[], 0⟩).state.store
        (buildKey "k" none ++ ":lock") = none ∧
      kvGet (getOrSet true none "k" (Except.error ())
        ⟨none, [], none⟩ ⟨[], 0⟩).state.store (buildKey "k" none) =
        kvGet (⟨[], 0⟩ : RedisState).store (buildKey "k" none) ∧
      (getOrSet true none "k" (Except.error ())
        ⟨none, [], none⟩ ⟨[], 0⟩).trace =
        [CacheAction.readCache, CacheAction.lockAcquire,
         CacheAction.readCache, CacheAction.loaderCall,
         CacheAction.lockRelease]) ∧
     ((getOrSet true none "k" (Except.ok "v")
        ⟨none, [], none⟩ ⟨[], 0⟩).ret = Except.ok "v" ∧
      kvGet (getOrSet true none "k" (Except.ok "v")
        ⟨none, [], none⟩ ⟨[], 0⟩).state.store (buildKey "k" none) =
        some (RVal.str "v") ∧
      kvGet (getOrSet true none "k" (Except.ok "v")
        ⟨none, [], none⟩ ⟨[], 0⟩).state.store
        (buildKey "k" none ++ ":lock") = none ∧
      (getOrSet true none "k" (Except.ok "v")
        ⟨none, [], none⟩ ⟨[], 0⟩).trace =
        [CacheAction.readCache, CacheAction.lockAcquire,
         CacheAction.readCache, CacheAction.loaderCall,
         CacheAction.cacheWrite, CacheAction.lockRelease])) :=
  ⟨⟨rfl, rfl⟩,
   getOrSet_lock_release "k" ⟨none, [], none⟩ "v" ⟨[], 0⟩ rfl rfl⟩

/-- C6 is violated by the code and the claim matches the evident intent, so
the code is the bug: getOrSet computes its lock key and write-back key with
the namespace, but its initial read (and double-check) go through this.get,
which composes the key without a namespace argument.  With namespace "ns"
the first call stores the loaded value under cache:ns:k, yet a second
identical call misses its read of cache:k and runs the loader again; with no
namespace the second call hits and the loader is not re-run. -/
theorem getOrSet_namespaced_read_write_mismatch :
    buildKey "k" (some "ns") = "cache:ns:k" ∧
    buildKey "k" none = "cache:k" ∧
    (getOrSet true none "k" (Except.ok "v")
      ⟨none, [], some "ns"⟩ ⟨[], 0⟩).loaderCalls = 1 ∧
    kvGet (getOrSet true none "k" (Except.ok "v")
      ⟨none, [], some "ns"⟩ ⟨[], 0⟩).state.store "cache:ns:k" =
      some (RVal.str "v") ∧
    (getOrSet true none "k" (Except.ok "v") ⟨none, [], some "ns"⟩
      (getOrSet true none "k" (Except.ok "v")
        ⟨none, [], some "ns"⟩ ⟨[], 0⟩).state).loaderCalls = 1 ∧
    (getOrSet true none "k" (Except.ok "v") ⟨none, [], none⟩
      (getOrSet true none "k" (Except.ok "v")
        ⟨none, [], none⟩ ⟨[], 0⟩).state).loaderCalls = 0 :=
  ⟨rfl, rfl, by decide, by decide, by decide, by decide⟩

lemma opCatch_default {α : Type} (m : RedisOp α) (a : α) (s : RedisState) :
    ∃ (r : α) (s2 : RedisState),
      opCatch m (fun _ => opPure a) s = (Except.ok r, s2) := by
  rcases hm : m s with ⟨r1, s1⟩
  rcases r1 with e | v
  · exact ⟨a, s1, by simp [opCatch, opPure, hm]⟩
  · exact ⟨v, s1, by simp [opCatch, hm]⟩

lemma wDel_ok (healthy : Bool) (f : Option ℕ) (k : String) (s : RedisState) :
    ∃ (b : Bool) (s2 : RedisState), wDel healthy f k s = (Except.ok b, s2) := by
  cases healthy
  · exact ⟨false, s, rfl⟩
  · exact opCatch_default _ _ _

lemma deleteCacheTags_ok (f : Option ℕ) (ck : String) (s : RedisState) :
    ∃ (s2 : RedisState), deleteCacheTags f ck s = (Except.ok (), s2) := by
  obtain ⟨r, s2, h⟩ := opCatch_default
    (opBind (rKeys f "cache:tag:") fun tagKeys =>
      deleteCacheTagsLoop f ck tagKeys) () s
  exact ⟨s2, h⟩

/-- C8 amended: every public CacheStore operation is total with the
documented unhealthy defaults, and runtime store errors never escape.  On a
runtime error: get misses, set reports false when the value write itself
raises but keeps the write verdict (true) when only the tag bookkeeping
raises, clear reports false, invalidateByTags returns exactly the count
accumulated before the error (shown on a two-tag run whose second SMEMBERS
raises: count 1, second tag untouched, against 2 for the error-free run),
and delete reports true because the redis wrapper has already swallowed the
raise and delete ignores its verdict. -/
theorem cacheStore_safe_defaults (key value : String) (ns : Option String)
    (opts : CacheOptions) (tags : List String) (f : Option ℕ)
    (s : RedisState) :
    cache_get false f key s = (Except.ok none, s) ∧
    cache_set false f key value opts s = (Except.ok false, s) ∧
    cache_delete false f key ns s = (Except.ok false, s) ∧
    invalidateByTags false f tags s = (Except.ok 0, s) ∧
    cache_clear false f ns s = (Except.ok false, s) ∧
    (cache_get true (some s.tick) key s).1 = Except.ok none ∧
    (cache_set true (some s.tick) key value opts s).1 = Except.ok false ∧
    (∀ (tag : String) (rest : List String) (t2 : Option ℕ)
      (n2 : Option String),
      (cache_set true (some (s.tick + 1)) key value
        ⟨t2, tag :: rest, n2⟩ s).1 = Except.ok true) ∧
    (cache_clear true (some s.tick) ns s).1 = Except.ok false ∧
    (∀ g, (cache_delete true g key ns s).1 = Except.ok true) ∧
    (invalidateByTags true (some 3) ["t1", "t2"]
      ⟨[("cache:tag:t1", RVal.sset ["cache:a"]),
        ("cache:tag:t2", RVal.sset ["cache:b"]),
        ("cache:a", RVal.str "x"), ("cache:b", RVal.str "y")], 0⟩).1 =
      Except.ok 1 ∧
    kvGet (invalidateByTags true (some 3) ["t1", "t2"]
      ⟨[("cache:tag:t1", RVal.sset ["cache:a"]),
        ("cache:tag:t2", RVal.sset ["cache:b"]),
        ("cache:a", RVal.str "x"), ("cache:b", RVal.str "y")], 0⟩).2.store
      "cache:b" = some (RVal.str "y") ∧
    (invalidateByTags true none ["t1", "t2"]
      ⟨[("cache:tag:t1", RVal.sset ["cache:a"]),
        ("cache:tag:t2", RVal.sset ["cache:b"]),
        ("cache:a", RVal.str "x"), ("cache:b", RVal.str "y")], 0⟩).1 =
      Except.ok 2 ∧
    (∀ g, ∃ o, (cache_get true g key s).1 = Except.ok o) ∧
    (∀ g, ∃ b, (cache_set true g key value opts s).1 = Except.ok b) ∧
    (∀ g, ∃ n, (invalidateByTags true g tags s).1 = Except.ok n) ∧
    (∀ g, ∃ b, (cache_clear true g ns s).1 = Except.ok b) := by
  refine ⟨rfl, rfl, rfl, rfl, rfl, ?_, ?_, ?_, ?_, ?_, by decide, by decide,
    by decide, ?_, ?_, ?_, ?_⟩
  · simp [cache_get, wGet, rGet, opCatch, opBind, opPure, consume]
  · rcases hstc : storeCacheTags true (some s.tick) (buildKey key opts.ns)
        opts.tags { s with tick := s.tick + 1 } with ⟨r, s2⟩
    obtain ⟨s2x, hok⟩ : ∃ s2x, storeCacheTags true (some s.tick)
        (buildKey key opts.ns) opts.tags { s with tick := s.tick + 1 } =
        (Except.ok (), s2x) := by
      obtain ⟨r1, s2y, h⟩ := opCatch_default
        (storeCacheTagsLoop true (some s.tick) (buildKey key opts.ns)
          opts.tags) () { s with tick := s.tick + 1 }
      exact ⟨s2y, h⟩
    by_cases he : opts.tags.isEmpty
    · simp [cache_set, wSet, rSetStr, opCatch, opBind, opPure, consume, he]
    · simp [cache_set, wSet, rSetStr, opCatch, opBind, opPure, consume, he,
        hok]
  · intro tag rest t2 n2
    have hcons1 : consume (some (s.tick + 1)) s =
        (Except.ok (), { s with tick := s.tick + 1 }) := by
      unfold consume
      rw [if_neg (by
        intro hcontra
        have := Option.some.inj hcontra
        omega)]
    have hwset : wSet true (some (s.tick + 1)) (buildKey key n2) value
        (ttlOf ⟨t2, tag :: rest, n2⟩) s =
        (Except.ok true,
         ⟨kvSet s.store (buildKey key n2) (RVal.str value), s.tick + 1⟩) := by
      simp [wSet, rSetStr, opCatch, opBind, opPure, hcons1]
    have hstc : storeCacheTags true (some (s.tick + 1)) (buildKey key n2)
        (tag :: rest)
        (⟨kvSet s.store (buildKey key n2) (RVal.str value),
          s.tick + 1⟩ : RedisState) =
        (Except.ok (),
         ⟨kvSet s.store (buildKey key n2) (RVal.str value),
          s.tick + 1 + 1⟩) := by
      simp [storeCacheTags, storeCacheTagsLoop, rSadd, opCatch, opBind,
        opPure, consume]
    have hrun : cache_set true (some (s.tick + 1)) key value
        ⟨t2, tag :: rest, n2⟩ s =
        (Except.ok true,
         ⟨kvSet s.store (buildKey key n2) (RVal.str value),
          s.tick + 1 + 1⟩) := by
      simp [cache_set, opCatch, opBind, opPure, hwset, hstc]
    rw [hrun]
  · simp [cache_clear, rKeys, opCatch, opBind, opPure, consume]
  · intro g
    obtain ⟨b, s1, hw⟩ := wDel_ok true g (buildKey key ns) s
    obtain ⟨s2, hd⟩ := deleteCacheTags_ok g (buildKey key ns) s1
    simp [cache_delete, opCatch, opBind, opPure, hw, hd]
  · intro g
    obtain ⟨r, s2, h⟩ := opCatch_default
      (wGet true g (buildKey key none)) none s
    exact ⟨r, by
      rw [show cache_get true g key s = (Except.ok r, s2) from h]⟩
  · intro g
    obtain ⟨r, s2, h⟩ := opCatch_default
      (opBind (wSet true g (buildKey key opts.ns) value (ttlOf opts))
        fun success =>
          opBind
            (if opts.tags.isEmpty then opPure ()
             else storeCacheTags true g (buildKey key opts.ns) opts.tags)
            fun _ => opPure success) false s
    exact ⟨r, by
      rw [show cache_set true g key value opts s = (Except.ok r, s2) from h]⟩
  · intro g
    rcases tags with _ | ⟨t, rest⟩
    · exact ⟨0, by simp [invalidateByTags, invalidateTagsLoop, opPure]⟩
    · obtain ⟨r, s2, h⟩ := opCatch_default
        (opBind (rSmembers g (tagKey t)) fun ks =>
          opBind (delKeysLoop true g ks 0) fun acc1 =>
            opBind (wDel true g (tagKey t)) fun _ =>
              invalidateTagsLoop true g rest acc1) 0 s
      exact ⟨r, by
        rw [show invalidateByTags true g (t :: rest) s =
          (Except.ok r, s2) from h]⟩
  · intro g
    obtain ⟨r, s2, h⟩ := opCatch_default
      (opBind (rKeys g
          (match ns with
           | some n => "cache:" ++ n ++ ":"
           | none => "cache:")) fun ks =>
        opBind (if ks.isEmpty then opPure 0 else rDelMany g ks) fun _ =>
          opPure true) false s
    exact ⟨r, by
      rw [show cache_clear true g ns s = (Except.ok r, s2) from h]⟩

/-- C8 as literally stated fails for delete: with a healthy flag and the
underlying DEL raising at runtime, the wrapper swallows the raise (returning
false, which delete ignores), so delete reports true — the key is in fact
still present — where the claim requires false. -/
theorem cacheStore_delete_error_counterexample :
    (cache_delete true (some 0) "a" none
      ⟨[("cache:a", RVal.str "v")], 0⟩).1 = Except.ok true ∧
    Except.ok true ≠ (Except.ok false : Except Unit Bool) ∧
    kvGet (cache_delete true (some 0) "a" none
      ⟨[("cache:a", RVal.str "v")], 0⟩).2.store "cache:a" =
      some (RVal.str "v") :=
  ⟨by decide, by decide, by decide⟩

/-- Member keys of a tag's set as stored (empty when the tag set is absent
or ill-typed). -/
def members (s : RedisState) (t : String) : List String :=
  match kvGet s.store (tagKey t) with
  | some (RVal.sset ms) => ms
  | _ => []

lemma delKeysLoop_spec (ks : List String) :
    ∀ (acc : ℕ) (s : RedisState),
      delKeysLoop true none ks acc s =
        (Except.ok (acc + ks.length),
         ⟨ks.foldl kvDel s.store, s.tick + ks.length⟩) := by
  induction ks with
  | nil =>
    intro acc s
    simp [delKeysLoop, opPure]
  | cons k rest ih =>
    intro acc s
    simp only [delKeysLoop, opBind, wDel_eval, List.foldl_cons, ih,
      List.length_cons]
    refine congrArg₂ _ (by rw [Nat.add_comm rest.length 1, Nat.add_assoc]) ?_
    refine congrArg _ ?_
    rw [Nat.add_comm rest.length 1, Nat.add_assoc]

lemma rSmembers_eval_absent (t : String) (s : RedisState)
    (h : kvGet s.store (tagKey t) = none) :
    rSmembers none (tagKey t) s =
      (Except.ok [], { s with tick := s.tick + 1 }) := by
  simp [rSmembers, opBind, consume_none, h]

lemma rSmembers_eval_set (t : String) (ms : List String) (s : RedisState)
    (h : kvGet s.store (tagKey t) = some (RVal.sset ms)) :
    rSmembers none (tagKey t) s =
      (Except.ok ms, { s with tick := s.tick + 1 }) := by
  simp [rSmembers, opBind, consume_none, h]

lemma members_eval (t : String) (s : RedisState)
    (hty : kvGet s.store (tagKey t) = none ∨
      ∃ ms, kvGet s.store (tagKey t) = some (RVal.sset ms)) :
    rSmembers none (tagKey t) s =
      (Except.ok (members s t), { s with tick := s.tick + 1 }) := by
  rcases hty with h | ⟨ms, h⟩
  · rw [rSmembers_eval_absent t s h]
    simp [members, h]
  · rw [rSmembers_eval_set t ms s h]
    simp [members, h]

lemma invalidateTagsLoop_cons_eval (t : String) (rest : List String)
    (acc : ℕ) (s : RedisState)
    (hty : kvGet s.store (tagKey t) = none ∨
      ∃ ms, kvGet s.store (tagKey t) = some (RVal.sset ms)) :
    invalidateTagsLoop true none (t :: rest) acc s =
      match invalidateTagsLoop true none rest (acc + (members s t).length)
          (⟨kvDel ((members s t).foldl kvDel s.store) (tagKey t),
            s.tick + 1 + (members s t).length + 1⟩ : RedisState) with
      | (Except.ok n, s4) => (Except.ok n, s4)
      | (Except.error _, s4) => (Except.ok acc, s4) := by
  rcases hr : invalidateTagsLoop true none rest (acc + (members s t).length)
      (⟨kvDel ((members s t).foldl kvDel s.store) (tagKey t),
        s.tick + 1 + (members s t).length + 1⟩ : RedisState) with ⟨rr, s4⟩
  simp only [invalidateTagsLoop, opCatch, opBind, members_eval t s hty,
    delKeysLoop_spec, wDel_eval, hr]
  rcases rr with e | n
  · simp [opPure]
  · simp [opPure]

lemma members_congr (s1 s2 : RedisState) (u : String)
    (h : kvGet s1.store (tagKey u) = kvGet s2.store (tagKey u)) :
    members s1 u = members s2 u := by
  unfold members
  rw [h]

lemma invalidateTagsLoop_spec :
    ∀ (tags : List String) (acc : ℕ) (s : RedisState),
    (∀ t ∈ tags, kvGet s.store (tagKey t) = none ∨
      ∃ ms, kvGet s.store (tagKey t) = some (RVal.sset ms)) →
    (∀ t ∈ tags, ∀ m ∈ members s t, ∀ u, m ≠ tagKey u) →
    tags.Pairwise (fun a b => tagKey a ≠ tagKey b) →
    ∃ s2, invalidateTagsLoop true none tags acc s =
        (Except.ok (acc + (tags.map (fun t => (members s t).length)).sum), s2) ∧
      (∀ t ∈ tags, kvGet s2.store (tagKey t) = none) ∧
      (∀ t ∈ tags, ∀ m ∈ members s t, kvGet s2.store m = none) ∧
      (∀ k, kvGet s.store k = none → kvGet s2.store k = none) := by
  intro tags
  induction tags with
  | nil =>
    intro acc s _ _ _
    exact ⟨s, by simp [invalidateTagsLoop, opPure],
      by simp, by simp, fun k hk => hk⟩
  | cons t rest ih =>
    intro acc s hty hmem hnd
    have hty_t := hty t (List.mem_cons_self t rest)
    have f1 : kvGet (kvDel ((members s t).foldl kvDel s.store) (tagKey t))
        (tagKey t) = none := kvGet_kvDel_self _ _
    have f2 : ∀ m ∈ members s t,
        kvGet (kvDel ((members s t).foldl kvDel s.store) (tagKey t)) m =
          none := by
      intro m hm
      exact kvGet_kvDel_none _ _ _ (foldl_kvDel_mem _ s.store m hm)
    have f3 : ∀ u ∈ rest,
        kvGet (kvDel ((members s t).foldl kvDel s.store) (tagKey t))
          (tagKey u) = kvGet s.store (tagKey u) := by
      intro u hu
      have hne : tagKey u ≠ tagKey t :=
        Ne.symm ((List.pairwise_cons.mp hnd).1 u hu)
      rw [kvGet_kvDel_ne _ _ _ hne]
      exact foldl_kvDel_ne _ s.store (tagKey u)
        (fun m hm => Ne.symm (hmem t (List.mem_cons_self t rest) m hm u))
    have f4 : ∀ u ∈ rest,
        members (⟨kvDel ((members s t).foldl kvDel s.store) (tagKey t),
          s.tick + 1 + (members s t).length + 1⟩ : RedisState) u =
          members s u := by
      intro u hu
      exact members_congr _ s u (f3 u hu)
    have f5 : ∀ k, kvGet s.store k = none →
        kvGet (kvDel ((members s t).foldl kvDel s.store) (tagKey t)) k =
          none := by
      intro k hk
      exact kvGet_kvDel_none _ _ _ (foldl_kvDel_none _ s.store k hk)
    obtain ⟨s2, hrec, g1, g2, g3⟩ := ih (acc + (members s t).length)
      (⟨kvDel ((members s t).foldl kvDel s.store) (tagKey t),
        s.tick + 1 + (members s t).length + 1⟩ : RedisState)
      (fun u hu => by
        have h := hty u (List.mem_cons_of_mem t hu)
        rw [← f3 u hu] at h
        exact h)
      (fun u hu m hm => by
        rw [f4 u hu] at hm
        exact hmem u (List.mem_cons_of_mem t hu) m hm)
      (List.pairwise_cons.mp hnd).2
    have hmapeq : rest.map (fun u =>
        (members (⟨kvDel ((members s t).foldl kvDel s.store) (tagKey t),
          s.tick + 1 + (members s t).length + 1⟩ : RedisState) u).length) =
        rest.map (fun u => (members s u).length) :=
      List.map_congr_left (fun u hu => by rw [f4 u hu])
    refine ⟨s2, ?_, ?_, ?_, ?_⟩
    · rw [invalidateTagsLoop_cons_eval t rest acc s hty_t, hrec, hmapeq]
      simp only [List.map_cons, List.sum_cons]
      rw [show acc + (members s t).length +
        (rest.map (fun u => (members s u).length)).sum =
        acc + ((members s t).length +
          (rest.map (fun u => (members s u).length)).sum) from by omega]
    · intro u hu
      rcases List.mem_cons.mp hu with h1 | h1
      · subst h1
        exact g3 _ f1
      · exact g1 u h1
    · intro u hu m hm
      rcases List.mem_cons.mp hu with h1 | h1
      · subst h1
        exact g3 _ (f2 m hm)
      · rw [← f4 u h1] at hm
        exact g2 u h1 m hm
    · intro k hk
      exact g3 k (f5 k hk)

/-- C5: invalidateByTags on a healthy store deletes every member key of each
supplied tag's set, then the tag-set itself, returning the number of member
entries removed — stated for distinct tags whose stored sets are well-typed
and whose members are not themselves tag keys, the shape the tag bookkeeping
produces; and concretely, after set("a", 1, tags ["t"]) on an empty store,
invalidateByTags(["t"]) returns 1 and a subsequent get("a") misses. -/
theorem invalidateByTags_spec (tags : List String) (st : RedisState)
    (hty : ∀ t ∈ tags, kvGet st.store (tagKey t) = none ∨
      ∃ ms, kvGet st.store (tagKey t) = some (RVal.sset ms))
    (hmem : ∀ t ∈ tags, ∀ m ∈ members st t, ∀ u, m ≠ tagKey u)
    (hnd : tags.Pairwise (fun a b => tagKey a ≠ tagKey b)) :
    (∃ s2, invalidateByTags true none tags st =
        (Except.ok ((tags.map (fun t => (members st t).length)).sum), s2) ∧
      (∀ t ∈ tags, kvGet s2.store (tagKey t) = none) ∧
      (∀ t ∈ tags, ∀ m ∈ members st t, kvGet s2.store m = none)) ∧
    (invalidateByTags true none ["t"]
      (cache_set true none "a" "1" ⟨none, ["t"], none⟩ ⟨[], 0⟩).2).1 =
      Except.ok 1 ∧
    (cache_get true none "a"
      (invalidateByTags true none ["t"]
        (cache_set true none "a" "1" ⟨none, ["t"], none⟩ ⟨[], 0⟩).2).2).1 =
      Except.ok none := by
  refine ⟨?_, by decide, by decide⟩
  obtain ⟨s2, h, g1, g2, _⟩ := invalidateTagsLoop_spec tags 0 st hty hmem hnd
  rw [Nat.zero_add] at h
  exact ⟨s2, h, g1, g2⟩

/-- Witness for C5 at the round-trip store: one entry cache:a tagged "t". -/
theorem invalidateByTags_spec_witness :
    ((∀ t ∈ ["t"], kvGet (cache_set true none "a" "1"
        ⟨none, ["t"], none⟩ ⟨[], 0⟩).2.store (tagKey t) = none ∨
      ∃ ms, kvGet (cache_set true none "a" "1"
        ⟨none, ["t"], none⟩ ⟨[], 0⟩).2.store (tagKey t) =
        some (RVal.sset ms)) ∧
     (∀ t ∈ ["t"], ∀ m ∈ members (cache_set true none "a" "1"
        ⟨none, ["t"], none⟩ ⟨[], 0⟩).2 t, ∀ u, m ≠ tagKey u) ∧
     (["t"] : List String).Pairwise (fun a b => tagKey a ≠ tagKey b)) ∧
    ((∃ s2, invalidateByTags true none ["t"]
        (cache_set true none "a" "1" ⟨none, ["t"], none⟩ ⟨[], 0⟩).2 =
        (Except.ok ((["t"].map (fun t => (members (cache_set true none "a"
          "1" ⟨none, ["t"], none⟩ ⟨[], 0⟩).2 t).length)).sum), s2) ∧
      (∀ t ∈ ["t"], kvGet s2.store (tagKey t) = none) ∧
      (∀ t ∈ ["t"], ∀ m ∈ members (cache_set true none "a" "1"
        ⟨none, ["t"], none⟩ ⟨[], 0⟩).2 t, kvGet s2.store m = none)) ∧
    (invalidateByTags true none ["t"]
      (cache_set true none "a" "1" ⟨none, ["t"], none⟩ ⟨[], 0⟩).2).1 =
      Except.ok 1 ∧
    (cache_get true none "a"
      (invalidateByTags true none ["t"]
        (cache_set true none "a" "1" ⟨none, ["t"], none⟩ ⟨[], 0⟩).2).2).1 =
      Except.ok none) := by
  have hty : ∀ t ∈ ["t"], kvGet (cache_set true none "a" "1"
      ⟨none, ["t"], none⟩ ⟨[], 0⟩).2.store (tagKey t) = none ∨
      ∃ ms, kvGet (cache_set true none "a" "1"
        ⟨none, ["t"], none⟩ ⟨[], 0⟩).2.store (tagKey t) =
        some (RVal.sset ms) := by
    intro t ht
    have ht1 : t = "t" := by simpa using ht
    subst ht1
    exact Or.inr ⟨["cache:a"], by decide⟩
  have hmem : ∀ t ∈ ["t"], ∀ m ∈ members (cache_set true none "a" "1"
      ⟨none, ["t"], none⟩ ⟨[], 0⟩).2 t, ∀ u, m ≠ tagKey u := by
    intro t ht m hm u hcontra
    have ht1 : t = "t" := by simpa using ht
    subst ht1
    have hms : members (cache_set true none "a" "1"
        ⟨none, ["t"], none⟩ ⟨[], 0⟩).2 "t" = ["cache:a"] := by decide
    rw [hms] at hm
    have hm1 : m = "cache:a" := by simpa using hm
    subst hm1
    have hlen := congrArg String.length hcontra
    have e1 : ("cache:a" : String).length = 7 := rfl
    have e2 : ("cache:tag:" : String).length = 10 := rfl
    rw [show tagKey u = "cache:tag:" ++ u from rfl,
      String.length_append, e1, e2] at hlen
    omega
  have hnd : (["t"] : List String).Pairwise
      (fun a b => tagKey a ≠ tagKey b) := by simp
  exact ⟨⟨hty, hmem, hnd⟩,
    invalidateByTags_spec ["t"]
      (cache_set true none "a" "1" ⟨none, ["t"], none⟩ ⟨[], 0⟩).2
      hty hmem hnd⟩

end HighScale
